import Mathlib

/-!
Verification of the ContextBuilder ingestion engine against its specification.

Each section embeds one Rust module of the repository as executable Lean
definitions (strings are processed as `List Char`; regular expressions are
translated to equivalent scanning functions; external crates — `sha2`,
`url::Url::join`, `std::net::IpAddr` parsing — are abstracted as function
parameters).  Theorems about the claims of the specification follow at the end.
-/

namespace ContextBuilder

/-! ## String-model helpers (Rust `str` semantics over `List Char`) -/

/-- The backtick character (code-fence marker). -/
def btick : Char := Char.ofNat 96

/-- ASCII whitespace, the subset of Rust's `char::is_whitespace` / regex `\s`
relevant to the embedded inputs (space, tab, newline, carriage return,
vertical tab, form feed). -/
def asciiWs (c : Char) : Bool :=
  c = ' ' || c = '\t' || c = '\n' || c = '\r' || c = '\x0b' || c = '\x0c'

/-- Split on `'\n'`, keeping empty segments (`"".splitNL = [[]]`). -/
def splitNL : List Char → List (List Char)
  | [] => [[]]
  | c :: rest =>
    if c = '\n' then [] :: splitNL rest
    else
      match splitNL rest with
      | l :: ls => (c :: l) :: ls
      | [] => [[c]]

/-- Strip one trailing `'\r'`, as Rust's `str::lines` does per line. -/
def stripCR (l : List Char) : List Char :=
  if l.getLast? = some '\r' then l.dropLast else l

/-- Rust's `str::lines`: split on `'\n'`, the final line ending optional,
each line stripped of one trailing `'\r'`. -/
def rustLines (cs : List Char) : List (List Char) :=
  if cs = [] then []
  else
    let parts := splitNL cs
    let parts := if cs.getLast? = some '\n' then parts.dropLast else parts
    parts.map stripCR

/-- Join lines with `'\n'` (Rust `join("\n")`). -/
def joinNL : List (List Char) → List Char
  | [] => []
  | [l] => l
  | l :: ls => l ++ '\n' :: joinNL ls

/-- Rust `str::trim_start` (ASCII model). -/
def trimStart (l : List Char) : List Char := l.dropWhile asciiWs

/-- Rust `str::trim_end` (ASCII model). -/
def trimEnd (l : List Char) : List Char := (l.reverse.dropWhile asciiWs).reverse

/-- Rust `str::trim` (ASCII model). -/
def rustTrim (l : List Char) : List Char := trimEnd (trimStart l)

/-- Whether `p` is a prefix of `l`, as a Boolean (Rust `str::starts_with`). -/
def strStarts (l p : List Char) : Bool := l.take p.length = p

/-- Whether `p` is a suffix of `l`, as a Boolean (Rust `str::ends_with`). -/
def strEnds (l p : List Char) : Bool := strStarts l.reverse p.reverse

/-- UTF-8 encoding of one character (matches Rust `str::as_bytes`). -/
def utf8Char (c : Char) : List Nat :=
  let n := c.toNat
  if n < 0x80 then [n]
  else if n < 0x800 then [0xC0 ||| (n >>> 6), 0x80 ||| (n &&& 0x3F)]
  else if n < 0x10000 then
    [0xE0 ||| (n >>> 12), 0x80 ||| ((n >>> 6) &&& 0x3F), 0x80 ||| (n &&& 0x3F)]
  else
    [0xF0 ||| (n >>> 18), 0x80 ||| ((n >>> 12) &&& 0x3F),
     0x80 ||| ((n >>> 6) &&& 0x3F), 0x80 ||| (n &&& 0x3F)]

/-- UTF-8 encoding of a character list (Rust `str::as_bytes`). -/
def utf8Bytes (cs : List Char) : List Nat := cs.flatMap utf8Char

/-! ## `markdown/src/cleanup.rs` — the seven-pass cleanup pipeline -/

/-- Capture of the heading regex `^(#{1,6})\s+(.+)$` on a single line:
returns the number of hashes and the text capture.  The text capture follows
the leftmost-greedy backtracking of `\s+(.+)`: when nothing but whitespace
follows the hashes, `.+` takes the final whitespace character. -/
def headingCapture (line : List Char) : Option (Nat × List Char) :=
  let hashes := (line.takeWhile (· = '#')).length
  if hashes = 0 || hashes > 6 then none
  else
    let afterH := line.drop hashes
    let ws := afterH.takeWhile asciiWs
    let rest := afterH.drop ws.length
    if ws.length = 0 then none
    else if rest ≠ [] then some (hashes, rest)
    else if ws.length ≥ 2 then some (hashes, [ws.getLastD ' '])
    else none

/-- Line loop of `normalize_headings`: count H1s, demote every H1 after the
first to an H2 built as `## {text}`. -/
def normHeadAux (h1count : Nat) : List (List Char) → List (List Char)
  | [] => []
  | l :: ls =>
    match headingCapture l with
    | some (1, text) =>
      if h1count + 1 > 1 then ('#' :: '#' :: ' ' :: text) :: normHeadAux (h1count + 1) ls
      else l :: normHeadAux (h1count + 1) ls
    | _ => l :: normHeadAux h1count ls

/-- Pass 1: `normalize_headings`. -/
def normalizeHeadings (s : String) : String :=
  ⟨joinNL (normHeadAux 0 (rustLines s.data))⟩

/-- Core of the `\n{4,}` → `"\n\n\n"` replacement: `pending` newlines have
been read; a run of ≥ 4 is emitted as exactly 3. -/
def collapseAux (pending : Nat) : List Char → List Char
  | [] => List.replicate (if pending ≥ 4 then 3 else pending) '\n'
  | c :: rest =>
    if c = '\n' then collapseAux (pending + 1) rest
    else List.replicate (if pending ≥ 4 then 3 else pending) '\n' ++ c :: collapseAux 0 rest

/-- Pass 2: `clean_blank_lines` — `MULTI_BLANK_RE.replace_all(md, "\n\n\n")`. -/
def cleanBlankLines (s : String) : String := ⟨collapseAux 0 s.data⟩

/-- Attempt the fence-language match of `^```(?:language-|lang-|highlight-)(\w+)`
after the backticks; returns the remainder past the matched alternation. -/
def langAfterFence (rest : List Char) : Option (List Char) :=
  if strStarts rest "language-".data then some (rest.drop 9)
  else if strStarts rest "lang-".data then some (rest.drop 5)
  else if strStarts rest "highlight-".data then some (rest.drop 10)
  else none

/-- Regex `\w` (ASCII model: alphanumeric or underscore). -/
def isWordChar (c : Char) : Bool := c.isAlphanum || c = '_'

/-- Try the full fence-language match at a line start; on success return the
replacement text together with the unconsumed remainder. -/
def tryLangMatch (cs : List Char) : Option (List Char × List Char) :=
  if strStarts cs [btick, btick, btick] then
    match langAfterFence (cs.drop 3) with
    | some after =>
      let w := after.takeWhile isWordChar
      if w = [] then none
      else some ([btick, btick, btick] ++ w, after.drop w.length)
    | none => none
  else none

/-- Scanner for pass 3: attempt the multiline-anchored match at each line
start; fuel bounds the scan by the input length. -/
def fixLangAux (fuel : Nat) (atStart : Bool) (cs : List Char) : List Char :=
  match fuel with
  | 0 => cs
  | fuel + 1 =>
    match cs with
    | [] => []
    | c :: rest =>
      if atStart then
        match tryLangMatch (c :: rest) with
        | some (rep, rest') => rep ++ fixLangAux fuel false rest'
        | none => c :: fixLangAux fuel (c = '\n') rest
      else c :: fixLangAux fuel (c = '\n') rest

/-- Pass 3: `fix_code_block_languages`. -/
def fixCodeBlockLanguages (s : String) : String :=
  ⟨fixLangAux (s.data.length + 1) true s.data⟩

/-- The HTML tag names stripped by pass 4. -/
def tagNames : List (List Char) :=
  ["div", "span", "section", "article", "aside", "header", "footer",
   "figure", "figcaption", "details", "summary"].map String.data

/-- Attempt the tag regex `</?(?:div|…|summary)(?:\s[^>]*)?>` at the head of
`cs`; returns the remainder after the match. -/
def matchTagAt (cs : List Char) : Option (List Char) :=
  match cs with
  | '<' :: rest =>
    let rest1 := if strStarts rest ['/'] then rest.drop 1 else rest
    match tagNames.find? (fun t => strStarts rest1 t) with
    | some t =>
      match rest1.drop t.length with
      | '>' :: r => some r
      | c :: r =>
        if asciiWs c then
          match r.dropWhile (· ≠ '>') with
          | '>' :: r3 => some r3
          | _ => none
        else none
      | [] => none
    | none => none
  | _ => none

/-- `strip_html_tags`: delete every tag match from a line, preserving the
text between matches (`HTML_TAG_RE.replace_all(line, "")`). -/
def stripHtmlTags (fuel : Nat) (cs : List Char) : List Char :=
  match fuel with
  | 0 => cs
  | fuel + 1 =>
    match cs with
    | [] => []
    | c :: rest =>
      match matchTagAt (c :: rest) with
      | some r => stripHtmlTags fuel r
      | none => c :: stripHtmlTags fuel rest

/-- Line loop of `strip_leftover_html`: a `^```` line toggles the in-code
state; in-code lines pass through; other lines are tag-stripped.  Each line
is emitted with a trailing `'\n'`. -/
def stripHtmlAux (inCode : Bool) : List (List Char) → List Char
  | [] => []
  | l :: ls =>
    if strStarts (trimStart l) [btick, btick, btick] then
      l ++ '\n' :: stripHtmlAux (!inCode) ls
    else if inCode then l ++ '\n' :: stripHtmlAux inCode ls
    else stripHtmlTags (l.length + 1) l ++ '\n' :: stripHtmlAux inCode ls

/-- Pass 4: `strip_leftover_html` (the final `'\n'` added by the loop is
popped again, as in the source). -/
def stripLeftoverHtml (s : String) : String :=
  let out := stripHtmlAux false (rustLines s.data)
  ⟨if out.getLast? = some '\n' then out.dropLast else out⟩

/-- Attempt the link regex `\[([^\]]*)\]\(([^)]+)\)` at the head of `cs`;
returns `(text, href, rest)`. -/
def matchLinkAt (cs : List Char) : Option (List Char × List Char × List Char) :=
  match cs with
  | '[' :: rest =>
    let text := rest.takeWhile (· ≠ ']')
    match rest.drop text.length with
    | ']' :: '(' :: rest2 =>
      let href := rest2.takeWhile (· ≠ ')')
      if href = [] then none
      else
        match rest2.drop href.length with
        | ')' :: rest3 => some (text, href, rest3)
        | _ => none
    | _ => none
  | _ => none

/-- Replacement for one link match, given the original character before the
match (`prev`): image links and absolute/anchor/mailto hrefs stay, other
hrefs are resolved through `join` (modelling `base.join(href)`, with `none`
for `Err`). -/
def linkReplacement (join : List Char → Option (List Char))
    (prev : Option Char) (text href : List Char) : List Char :=
  if prev = some '!' then '[' :: text ++ ']' :: '(' :: href ++ [')']
  else if strStarts href "http://".data || strStarts href "https://".data ||
      strStarts href "#".data || strStarts href "mailto:".data then
    '[' :: text ++ ']' :: '(' :: href ++ [')']
  else
    match join href with
    | some resolved => '[' :: text ++ ']' :: '(' :: resolved ++ [')']
    | none => '[' :: text ++ ']' :: '(' :: href ++ [')']

/-- Scanner for pass 5, tracking the previous original character. -/
def resolveLinksAux (join : List Char → Option (List Char)) (fuel : Nat)
    (prev : Option Char) (cs : List Char) : List Char :=
  match fuel with
  | 0 => cs
  | fuel + 1 =>
    match cs with
    | [] => []
    | c :: rest =>
      match matchLinkAt (c :: rest) with
      | some (text, href, rest3) =>
        linkReplacement join prev text href ++ resolveLinksAux join fuel (some ')') rest3
      | none => c :: resolveLinksAux join fuel (some c) rest

/-- Pass 5: `resolve_links`; `base` abstracts `Option<&Url>` as an optional
resolver `href ↦ base.join(href)`. -/
def resolveLinks (base : Option (List Char → Option (List Char))) (s : String) : String :=
  match base with
  | none => s
  | some join => ⟨resolveLinksAux join (s.data.length + 1) none s.data⟩

/-- Pass 6: `normalize_whitespace` — right-trim every line. -/
def normalizeWhitespace (s : String) : String :=
  ⟨joinNL ((rustLines s.data).map trimEnd)⟩

/-- Pass 7: `ensure_trailing_newline` — `trim_end_matches('\n')` then one `'\n'`. -/
def ensureTrailingNewline (s : String) : String :=
  ⟨(s.data.reverse.dropWhile (· = '\n')).reverse ++ ['\n']⟩

/-- The full cleanup pipeline `run_pipeline`, seven passes in source order. -/
def runPipeline (base : Option (List Char → Option (List Char))) (md : String) : String :=
  ensureTrailingNewline (normalizeWhitespace (resolveLinks base
    (stripLeftoverHtml (fixCodeBlockLanguages (cleanBlankLines (normalizeHeadings md))))))

/-! ### Idempotence of the blank-line collapse pass -/

/-- No run of four consecutive newlines occurs, assuming `k` newlines
immediately precede the list. -/
def okRun (k : Nat) : List Char → Bool
  | [] => true
  | c :: rest =>
    if c = '\n' then decide (k + 1 ≤ 3) && okRun (k + 1) rest else okRun 0 rest

theorem okRun_replicate_append {e : Nat} (he : e ≤ 3) {c : Char} (hc : c ≠ '\n')
    {tail : List Char} (ht : okRun 0 tail = true) :
    okRun 0 (List.replicate e '\n' ++ c :: tail) = true := by
  interval_cases e <;> simp [okRun, hc, ht]

theorem okRun_replicate {e : Nat} (he : e ≤ 3) :
    okRun 0 (List.replicate e '\n') = true := by
  interval_cases e <;> simp [okRun]

theorem okRun_collapseAux (cs : List Char) : ∀ k, okRun 0 (collapseAux k cs) = true := by
  induction cs with
  | nil =>
    intro k
    have : (if k ≥ 4 then 3 else k) ≤ 3 := by split <;> omega
    simpa [collapseAux] using okRun_replicate this
  | cons c rest ih =>
    intro k
    by_cases hc : c = '\n'
    · simpa [collapseAux, hc] using ih (k + 1)
    · have he : (if k ≥ 4 then 3 else k) ≤ 3 := by split <;> omega
      simpa [collapseAux, hc] using okRun_replicate_append he hc (ih 0)

theorem collapseAux_of_okRun (cs : List Char) :
    ∀ k, k ≤ 3 → okRun k cs = true → collapseAux k cs = List.replicate k '\n' ++ cs := by
  induction cs with
  | nil =>
    intro k hk _
    have he : ¬ k ≥ 4 := by omega
    simp [collapseAux, he]
  | cons c rest ih =>
    intro k hk hok
    by_cases hc : c = '\n'
    · subst hc
      have hok' : k + 1 ≤ 3 ∧ okRun (k + 1) rest = true := by simpa [okRun] using hok
      have hrec := ih (k + 1) hok'.1 hok'.2
      simp [collapseAux, hrec, List.replicate_succ']
    · have hok' : okRun 0 rest = true := by simpa [okRun, hc] using hok
      have h0 := ih 0 (by omega) hok'
      have he : ¬ k ≥ 4 := by omega
      simp [collapseAux, hc, h0, he]

-- sanity checks against the Rust unit tests of cleanup.rs
example :
    normalizeHeadings "# Title\n\nSome text\n\n# Another Title\n\nMore text" =
      "# Title\n\nSome text\n\n## Another Title\n\nMore text" := by decide

example : cleanBlankLines "Line 1\n\n\n\n\nLine 2" = "Line 1\n\n\nLine 2" := by decide

example : cleanBlankLines "Line 1\n\nLine 2" = "Line 1\n\nLine 2" := by decide

example :
    stripLeftoverHtml "# Title\n\n<div class=\"note\">Important info</div>\n\nMore text" =
      "# Title\n\nImportant info\n\nMore text" := by decide

example : normalizeWhitespace "Line 1   \nLine 2\t\nLine 3" = "Line 1\nLine 2\nLine 3" := by decide

example : ensureTrailingNewline "Content\n\n\n" = "Content\n" := by decide

/-! ## `crawler/src/engine.rs` — SSRF guard, scope, crawl loop

`url::Url` is modelled by its scheme / host / path components; parsing a host
string as `std::net::IpAddr` and the URL normalisation used for the visited
set are external-library operations, abstracted as function parameters. -/

/-- Model of `std::net::IpAddr`: four IPv4 octets or eight IPv6 segments. -/
inductive IpAddr where
  | v4 (a b c d : Nat)
  | v6 (s0 s1 s2 s3 s4 s5 s6 s7 : Nat)
  deriving DecidableEq

/-- Translation of `is_private_ip`: loopback, private, link-local, broadcast,
unspecified, carrier-grade NAT (100.64.0.0/10), and 192.0.0.0/24 for IPv4;
loopback and unspecified for IPv6 (the `std` range predicates expanded). -/
def isPrivateIp : IpAddr → Bool
  | .v4 a b c d =>
    (a == 127)
    || (a == 10) || ((a == 172) && decide (16 ≤ b) && decide (b ≤ 31)) || ((a == 192) && (b == 168))
    || ((a == 169) && (b == 254))
    || ((a == 255) && (b == 255) && (c == 255) && (d == 255))
    || ((a == 0) && (b == 0) && (c == 0) && (d == 0))
    || ((a == 100) && ((b &&& 0xC0) == 64))
    || ((a == 192) && (b == 0) && (c == 0))
  | .v6 s0 s1 s2 s3 s4 s5 s6 s7 =>
    ((s0 == 0) && (s1 == 0) && (s2 == 0) && (s3 == 0) &&
     (s4 == 0) && (s5 == 0) && (s6 == 0) && (s7 == 1))
    || ((s0 == 0) && (s1 == 0) && (s2 == 0) && (s3 == 0) &&
        (s4 == 0) && (s5 == 0) && (s6 == 0) && (s7 == 0))

/-- The components of a `url::Url` the crawler inspects. -/
structure CrawlUrl where
  scheme : String
  host : Option String
  path : String
  deriving DecidableEq

/-- Translation of `is_ssrf_target`; `parseIp` models `host.parse::<IpAddr>()`
(`none` for `Err`). -/
def isSsrfTarget (parseIp : String → Option IpAddr) (url : CrawlUrl) : Bool :=
  if url.scheme == "http" || url.scheme == "https" then
    match url.host with
    | some host =>
      match parseIp host with
      | some ip => isPrivateIp ip
      | none =>
        (host == "localhost") || (host == "127.0.0.1") || (host == "[::1]")
        || strEnds host.data ".local".data || strEnds host.data ".internal".data
    | none => false
  else true

/-- Token of the compiled glob regex: after `regex::escape` and the
replacements, `**` is `.*`, `*` is `[^/]*`, `?` is `.`, all else literal. -/
inductive GlobTok where
  | lit (c : Char)
  | star
  | dstar
  | qmark
  deriving DecidableEq

/-- Tokenise a glob pattern the way the escape-and-replace chain of
`glob_to_regex` does. -/
def globTokens : List Char → List GlobTok
  | [] => []
  | '*' :: '*' :: rest => .dstar :: globTokens rest
  | '*' :: rest => .star :: globTokens rest
  | '?' :: rest => .qmark :: globTokens rest
  | c :: rest => .lit c :: globTokens rest

/-- `glob_to_regex`: the escaped pattern always compiles, so the `.ok()` is
modelled as always-`some`. -/
def globToRegex (p : String) : Option (List GlobTok) := some (globTokens p.data)

/-- Anchored matching of a compiled glob against a whole string, with the
regex semantics of the produced pattern: `.*` and `.` do not cross `'\n'`,
`[^/]*` matches anything but `'/'`.  Fuelled; each step consumes a token or
a character, so `tokens + chars + 1` fuel is exact. -/
def globMatchF (fuel : Nat) : List GlobTok → List Char → Bool
  | ts, cs =>
    match fuel with
    | 0 => false
    | fuel + 1 =>
      match ts, cs with
      | [], [] => true
      | [], _ :: _ => false
      | .lit c :: ts', x :: xs => (c == x) && globMatchF fuel ts' xs
      | .lit _ :: _, [] => false
      | .qmark :: ts', x :: xs => (x != '\n') && globMatchF fuel ts' xs
      | .qmark :: _, [] => false
      | .star :: ts', [] => globMatchF fuel ts' []
      | .star :: ts', x :: xs =>
        globMatchF fuel ts' (x :: xs) || ((x != '/') && globMatchF fuel (.star :: ts') xs)
      | .dstar :: ts', [] => globMatchF fuel ts' []
      | .dstar :: ts', x :: xs =>
        globMatchF fuel ts' (x :: xs) || ((x != '\n') && globMatchF fuel (.dstar :: ts') xs)

/-- `pattern.is_match(path)` for the anchored `^…$` glob regex. -/
def globMatch (ts : List GlobTok) (cs : List Char) : Bool :=
  globMatchF (ts.length + cs.length + 1) ts cs

/-- The `CrawlConfig` fields consumed by the crawler. -/
structure CrawlConfig where
  depth : Nat
  concurrency : Nat
  includePatterns : List String
  excludePatterns : List String
  rateLimitMs : Nat
  mode : String
  respectRobotsTxt : Bool

/-- Translation of `CrawlScope`. -/
structure CrawlScope where
  basePath : String
  baseHost : String
  includePatterns : List (List GlobTok)
  excludePatterns : List (List GlobTok)

/-- `CrawlScope::new`. -/
def CrawlScope.ofStart (startUrl : CrawlUrl) (config : CrawlConfig) : CrawlScope :=
  { basePath := startUrl.path
    baseHost := startUrl.host.getD ""
    includePatterns := config.includePatterns.filterMap globToRegex
    excludePatterns := config.excludePatterns.filterMap globToRegex }

/-- Translation of `CrawlScope::in_scope`. -/
def CrawlScope.inScope (scope : CrawlScope) (url : CrawlUrl) : Bool :=
  if !(url.scheme == "http" || url.scheme == "https") then false
  else if !(url.host.getD "" == scope.baseHost) then false
  else
    let path := url.path
    if scope.excludePatterns.any (fun p => globMatch p path.data) then false
    else if !scope.includePatterns.isEmpty then
      scope.includePatterns.any (fun p => globMatch p path.data)
    else
      strStarts path.data scope.basePath.data || strStarts scope.basePath.data path.data
        || strStarts path.data "/".data

/-- Outcome of `fetch_page` for one URL: `none` models a network/HTTP error,
`some links` a success whose extracted links resolve to the given URLs. -/
abbrev FetchFn := CrawlUrl → Option (List CrawlUrl)

/-- Guard phase over one dequeued batch, in order: visited check-and-insert
(keyed by `nf`, the model of `normalize_url`), scope check, SSRF check.
Returns the updated visited set and the URLs actually handed to fetch tasks. -/
def processBatch (scope : CrawlScope) (parseIp : String → Option IpAddr)
    (nf : CrawlUrl → String) (allowLocalhost : Bool) :
    List String → List (CrawlUrl × Nat) → List String × List (CrawlUrl × Nat)
  | visited, [] => (visited, [])
  | visited, (url, depth) :: rest =>
    let normalized := nf url
    if visited.contains normalized then
      processBatch scope parseIp nf allowLocalhost visited rest
    else
      let visited' := normalized :: visited
      if !(scope.inScope url) then
        processBatch scope parseIp nf allowLocalhost visited' rest
      else if !allowLocalhost && isSsrfTarget parseIp url then
        processBatch scope parseIp nf allowLocalhost visited' rest
      else
        let (vOut, survivors) := processBatch scope parseIp nf allowLocalhost visited' rest
        (vOut, (url, depth) :: survivors)

/-- Result-collection phase of one batch: fetched pages are recorded in task
order; links of pages fetched at `depth < maxDepth` are pushed onto the queue
with `depth + 1`. -/
def collectResults (fetch : FetchFn) (maxDepth : Nat) :
    List (CrawlUrl × Nat) → List CrawlUrl × List (CrawlUrl × Nat)
  | [] => ([], [])
  | (url, depth) :: rest =>
    let (fs, qs) := collectResults fetch maxDepth rest
    match fetch url with
    | some links =>
      let newQ := if depth < maxDepth then links.map (fun l => (l, depth + 1)) else []
      (url :: fs, newQ ++ qs)
    | none => (fs, qs)

/-- The `while !queue.is_empty()` loop of `Crawler::crawl`, step-indexed by
`fuel`: drain up to `concurrency` items, run the guard phase, collect the
fetch results, append new links to the queue. -/
def crawlLoop (fetch : FetchFn) (parseIp : String → Option IpAddr)
    (nf : CrawlUrl → String) (scope : CrawlScope) (config : CrawlConfig)
    (allowLocalhost : Bool) :
    Nat → List (CrawlUrl × Nat) → List String → List CrawlUrl → List CrawlUrl
  | 0, _, _, fetched => fetched
  | _ + 1, [], _, fetched => fetched
  | fuel + 1, q :: queue, visited, fetched =>
    let drainCount := min (q :: queue).length config.concurrency
    let batch := (q :: queue).take drainCount
    let rest := (q :: queue).drop drainCount
    let (visited', survivors) := processBatch scope parseIp nf allowLocalhost visited batch
    let (newFetched, newQ) := collectResults fetch config.depth survivors
    crawlLoop fetch parseIp nf scope config allowLocalhost fuel (rest ++ newQ) visited'
      (fetched ++ newFetched)

/-- The URLs fetched by a crawl from `startUrl` (in fetch order). -/
def crawlFetched (fetch : FetchFn) (parseIp : String → Option IpAddr)
    (nf : CrawlUrl → String) (config : CrawlConfig) (allowLocalhost : Bool)
    (startUrl : CrawlUrl) (fuel : Nat) : List CrawlUrl :=
  crawlLoop fetch parseIp nf (CrawlScope.ofStart startUrl config) config allowLocalhost
    fuel [(startUrl, 0)] [] []

/-- Every URL surviving the guard phase passed the scope check and (unless
the test-only escape hatch is on) the SSRF check. -/
theorem processBatch_guard (scope : CrawlScope) (parseIp : String → Option IpAddr)
    (nf : CrawlUrl → String) (al : Bool) :
    ∀ (batch : List (CrawlUrl × Nat)) (visited : List String) (url : CrawlUrl) (depth : Nat),
      (url, depth) ∈ (processBatch scope parseIp nf al visited batch).2 →
      scope.inScope url = true ∧ (al = false → isSsrfTarget parseIp url = false) := by
  intro batch
  induction batch with
  | nil =>
    intro visited url depth h
    simp [processBatch] at h
  | cons p rest ih =>
    obtain ⟨u, d⟩ := p
    intro visited url depth h
    simp only [processBatch] at h
    split at h
    · exact ih _ _ _ h
    · split at h
      · exact ih _ _ _ h
      · split at h
        · exact ih _ _ _ h
        · next hscope hguard =>
          rcases hpb : processBatch scope parseIp nf al (nf u :: visited) rest with ⟨vOut, survivors⟩
          rw [hpb] at h
          simp only [List.mem_cons, Prod.mk.injEq] at h
          rcases h with ⟨hu, _⟩ | h
          · subst hu
            constructor
            · simpa using hscope
            · intro hal
              subst hal
              simpa using hguard
          · have := ih (nf u :: visited) url depth (by rw [hpb]; exact h)
            exact this

/-- Every fetched URL of a batch came from its survivor list. -/
theorem collectResults_mem (fetch : FetchFn) (maxDepth : Nat) :
    ∀ (survivors : List (CrawlUrl × Nat)) (url : CrawlUrl),
      url ∈ (collectResults fetch maxDepth survivors).1 → ∃ d, (url, d) ∈ survivors := by
  intro survivors
  induction survivors with
  | nil =>
    intro url h
    simp [collectResults] at h
  | cons p rest ih =>
    obtain ⟨u, d⟩ := p
    intro url h
    simp only [collectResults] at h
    rcases hc : collectResults fetch maxDepth rest with ⟨fs, qs⟩
    rw [hc] at h
    cases hf : fetch u with
    | some links =>
      rw [hf] at h
      simp only [List.mem_cons] at h
      rcases h with h | h
      · exact ⟨d, by simp [h]⟩
      · obtain ⟨d', hd'⟩ := ih url (by rw [hc]; exact h)
        exact ⟨d', by simp [hd']⟩
    | none =>
      rw [hf] at h
      obtain ⟨d', hd'⟩ := ih url (by rw [hc]; exact h)
      exact ⟨d', by simp [hd']⟩

/-- Loop invariant of `crawlLoop`: every fetched URL either was already in
the accumulator or passed the scope and SSRF guards. -/
theorem crawlLoop_guard (fetch : FetchFn) (parseIp : String → Option IpAddr)
    (nf : CrawlUrl → String) (scope : CrawlScope) (config : CrawlConfig) (al : Bool) :
    ∀ (fuel : Nat) (queue : List (CrawlUrl × Nat)) (visited : List String)
      (acc : List CrawlUrl) (url : CrawlUrl),
      url ∈ crawlLoop fetch parseIp nf scope config al fuel queue visited acc →
      url ∈ acc ∨
        (scope.inScope url = true ∧ (al = false → isSsrfTarget parseIp url = false)) := by
  intro fuel
  induction fuel with
  | zero =>
    intro queue visited acc url h
    simp only [crawlLoop] at h
    exact .inl h
  | succ fuel ih =>
    intro queue visited acc url h
    cases queue with
    | nil =>
      simp only [crawlLoop] at h
      exact .inl h
    | cons q qs =>
      simp only [crawlLoop] at h
      rcases hpb : processBatch scope parseIp nf al visited
          ((q :: qs).take (min (q :: qs).length config.concurrency)) with ⟨v', survivors⟩
      rw [hpb] at h
      rcases hcr : collectResults fetch config.depth survivors with ⟨newF, newQ⟩
      rw [hcr] at h
      rcases ih _ _ _ _ h with hacc | hg
      · rcases List.mem_append.mp hacc with hacc | hnew
        · exact .inl hacc
        · obtain ⟨d, hd⟩ := collectResults_mem fetch config.depth survivors url
            (by rw [hcr]; exact hnew)
          exact .inr (processBatch_guard scope parseIp nf al _ _ url d (by rw [hpb]; exact hd))
      · exact .inr hg

/-- Decomposition of a successful `in_scope` check into the four conditions
of the specification. -/
theorem inScope_components (scope : CrawlScope) (url : CrawlUrl)
    (h : scope.inScope url = true) :
    (url.scheme = "http" ∨ url.scheme = "https") ∧
    url.host.getD "" = scope.baseHost ∧
    (∀ p ∈ scope.excludePatterns, globMatch p url.path.data = false) ∧
    (scope.includePatterns = [] ∨
      ∃ p ∈ scope.includePatterns, globMatch p url.path.data = true) := by
  simp only [CrawlScope.inScope] at h
  split at h
  · exact absurd h (by simp)
  · next h1 =>
    split at h
    · exact absurd h (by simp)
    · next h2 =>
      split at h
      · exact absurd h (by simp)
      · next hexc =>
        refine ⟨?_, ?_, ?_, ?_⟩
        · cases hB : (url.scheme == "http" || url.scheme == "https") with
          | false => exact absurd (by simp [hB]) h1
          | true =>
            rcases Bool.or_eq_true_iff.mp hB with hcase | hcase
            · exact .inl (by simpa using hcase)
            · exact .inr (by simpa using hcase)
        · cases hB : (url.host.getD "" == scope.baseHost) with
          | false => exact absurd (by simp [hB]) h2
          | true => simpa using hB
        · intro p hp
          simp only [List.any_eq_true, not_exists, not_and] at hexc
          have hx : ¬ (globMatch p url.path.data = true) := fun hgm => hexc p hp hgm
          simpa using hx
        · split at h
          · next hne =>
            right
            simpa [List.any_eq_true] using h
          · next hemp =>
            left
            have : scope.includePatterns.isEmpty = true := by
              by_contra hcon
              exact hemp (by simpa using hcon)
            simpa [List.isEmpty_iff] using this

/-- The IPv4/IPv6 ranges the specification's SSRF sentence enumerates:
loopback, private, link-local, broadcast, unspecified, carrier-grade NAT,
192.0.0.0/24; IPv6 loopback and unspecified. -/
def claimPrivateIp : IpAddr → Prop
  | .v4 a b c d =>
    a = 127
    ∨ a = 10 ∨ (a = 172 ∧ 16 ≤ b ∧ b ≤ 31) ∨ (a = 192 ∧ b = 168)
    ∨ (a = 169 ∧ b = 254)
    ∨ (a = 255 ∧ b = 255 ∧ c = 255 ∧ d = 255)
    ∨ (a = 0 ∧ b = 0 ∧ c = 0 ∧ d = 0)
    ∨ (a = 100 ∧ 64 ≤ b ∧ b ≤ 127)
    ∨ (a = 192 ∧ b = 0 ∧ c = 0)
  | .v6 s0 s1 s2 s3 s4 s5 s6 s7 =>
    (s0 = 0 ∧ s1 = 0 ∧ s2 = 0 ∧ s3 = 0 ∧ s4 = 0 ∧ s5 = 0 ∧ s6 = 0 ∧ s7 = 1)
    ∨ (s0 = 0 ∧ s1 = 0 ∧ s2 = 0 ∧ s3 = 0 ∧ s4 = 0 ∧ s5 = 0 ∧ s6 = 0 ∧ s7 = 0)

/-- The specification's blocking condition on a URL: bad scheme, a host that
is textually one of the listed addresses, or one of the literal hostnames. -/
def claimBlocked (parseIp : String → Option IpAddr) (url : CrawlUrl) : Prop :=
  (url.scheme ≠ "http" ∧ url.scheme ≠ "https")
  ∨ (∃ host, url.host = some host ∧
      ((∃ ip, parseIp host = some ip ∧ claimPrivateIp ip)
        ∨ host = "localhost" ∨ host = "127.0.0.1" ∨ host = "[::1]"
        ∨ strEnds host.data ".local".data = true
        ∨ strEnds host.data ".internal".data = true))

theorem claimPrivateIp_isPrivateIp {ip : IpAddr} (h : claimPrivateIp ip) :
    isPrivateIp ip = true := by
  cases ip with
  | v4 a b c d =>
    simp only [claimPrivateIp] at h
    rcases h with h | h | ⟨h1, h2, h3⟩ | ⟨h1, h2⟩ | ⟨h1, h2⟩ | ⟨h1, h2, h3, h4⟩ |
      ⟨h1, h2, h3, h4⟩ | ⟨h1, h2, h3⟩ | ⟨h1, h2, h3⟩
    · simp [isPrivateIp, h]
    · simp [isPrivateIp, h]
    · simp [isPrivateIp, h1, decide_eq_true h2, decide_eq_true h3]
    · simp [isPrivateIp, h1, h2]
    · simp [isPrivateIp, h1, h2]
    · simp [isPrivateIp, h1, h2, h3, h4]
    · simp [isPrivateIp, h1, h2, h3, h4]
    · have hband : b &&& 0xC0 = 64 := by
        interval_cases b <;> decide
      simp [isPrivateIp, h1, hband]
    · simp [isPrivateIp, h1, h2, h3]
  | v6 s0 s1 s2 s3 s4 s5 s6 s7 =>
    simp only [claimPrivateIp] at h
    rcases h with ⟨h0, h1, h2, h3, h4, h5, h6, h7⟩ | ⟨h0, h1, h2, h3, h4, h5, h6, h7⟩ <;>
      simp [isPrivateIp, h0, h1, h2, h3, h4, h5, h6, h7]

/-- Under realistic assumptions on the external `IpAddr` parser (`localhost`,
`[::1]`, `*.local`, `*.internal` are not IP literals; `127.0.0.1` parses to
itself), every URL the specification says to block is an SSRF target. -/
theorem claimBlocked_isSsrfTarget (parseIp : String → Option IpAddr)
    (hp1 : parseIp "localhost" = none)
    (hp2 : parseIp "127.0.0.1" = some (.v4 127 0 0 1))
    (hp3 : parseIp "[::1]" = none)
    (hp4 : ∀ h, strEnds h.data ".local".data = true → parseIp h = none)
    (hp5 : ∀ h, strEnds h.data ".internal".data = true → parseIp h = none)
    (url : CrawlUrl) (h : claimBlocked parseIp url) :
    isSsrfTarget parseIp url = true := by
  rcases h with ⟨hs1, hs2⟩ | ⟨host, hhost, hcase⟩
  · simp [isSsrfTarget, hs1, hs2]
  · simp only [isSsrfTarget, hhost]
    split
    · rcases hcase with ⟨ip, hip, hpriv⟩ | h | h | h | h | h
      · simp [hip, claimPrivateIp_isPrivateIp hpriv]
      · subst h
        simp [hp1]
      · subst h
        simp [hp2, isPrivateIp]
      · subst h
        simp [hp3]
      · simp [hp4 host h, h]
      · simp [hp5 host h, h]
    · rfl

theorem filterMap_globToRegex (l : List String) :
    l.filterMap globToRegex = l.map (fun s => globTokens s.data) := by
  induction l with
  | nil => rfl
  | cons x xs ih => simp [List.filterMap_cons, globToRegex, ih]

/-! ### Concrete crawl instance used by the witnesses -/

/-- Concrete model of `host.parse::<IpAddr>()` for the hosts of the witness
crawl. -/
def wParseIp : String → Option IpAddr := fun h =>
  if h = "127.0.0.1" then some (.v4 127 0 0 1) else none

/-- Witness start URL. -/
def wStartUrl : CrawlUrl := ⟨"https", some "docs.example.com", "/"⟩

/-- Witness fetch outcome: the start URL succeeds with no links. -/
def wFetch : FetchFn := fun u => if u = wStartUrl then some [] else none

/-- Witness model of `normalize_url`. -/
def wNf : CrawlUrl → String := fun u => u.scheme ++ "://" ++ u.host.getD "" ++ u.path

/-- Witness crawl configuration (no include globs, no exclude globs). -/
def wConfig : CrawlConfig := ⟨3, 2, [], [], 0, "crawl", false⟩

/-- Witness crawl configuration with one exclude glob. -/
def wConfigEx : CrawlConfig := ⟨3, 2, [], ["/blog/**"], 0, "crawl", false⟩

theorem wParseIp_local : ∀ h, strEnds h.data ".local".data = true → wParseIp h = none := by
  intro h hend
  by_cases hq : h = "127.0.0.1"
  · subst hq
    exact absurd hend (by decide)
  · simp [wParseIp, hq]

theorem wParseIp_internal : ∀ h, strEnds h.data ".internal".data = true → wParseIp h = none := by
  intro h hend
  by_cases hq : h = "127.0.0.1"
  · subst hq
    exact absurd hend (by decide)
  · simp [wParseIp, hq]

/-- C3: for every URL the crawler fetches (escape hatch disabled), the
specification's SSRF blocking condition does not hold: a blocked URL is
never fetched. -/
theorem C3_ssrf_guard_conservative
    (fetch : FetchFn) (parseIp : String → Option IpAddr) (nf : CrawlUrl → String)
    (config : CrawlConfig) (startUrl : CrawlUrl) (fuel : Nat)
    (hp1 : parseIp "localhost" = none)
    (hp2 : parseIp "127.0.0.1" = some (.v4 127 0 0 1))
    (hp3 : parseIp "[::1]" = none)
    (hp4 : ∀ h, strEnds h.data ".local".data = true → parseIp h = none)
    (hp5 : ∀ h, strEnds h.data ".internal".data = true → parseIp h = none)
    (url : CrawlUrl)
    (hmem : url ∈ crawlFetched fetch parseIp nf config false startUrl fuel) :
    ¬ claimBlocked parseIp url := by
  intro hcb
  have hg := crawlLoop_guard fetch parseIp nf (CrawlScope.ofStart startUrl config) config false
    fuel [(startUrl, 0)] [] [] url hmem
  rcases hg with hin | ⟨_, hssrf⟩
  · simp at hin
  · have hblocked := claimBlocked_isSsrfTarget parseIp hp1 hp2 hp3 hp4 hp5 url hcb
    rw [hssrf rfl] at hblocked
    exact Bool.false_ne_true hblocked

/-- Witness for C3: a public URL is actually fetched and is not blocked. -/
theorem C3_ssrf_guard_conservative_witness :
    wStartUrl ∈ crawlFetched wFetch wParseIp wNf wConfig false wStartUrl 3 ∧
      ¬ claimBlocked wParseIp wStartUrl :=
  ⟨by decide,
   C3_ssrf_guard_conservative wFetch wParseIp wNf wConfig wStartUrl 3
     (by decide) (by decide) (by decide) wParseIp_local wParseIp_internal wStartUrl (by decide)⟩

/-- C6: every fetched URL has an http(s) scheme, the start URL's host, no
matching exclude glob, and (unless none are configured) a matching include
glob. -/
theorem C6_crawl_scope_invariant
    (fetch : FetchFn) (parseIp : String → Option IpAddr) (nf : CrawlUrl → String)
    (config : CrawlConfig) (al : Bool) (startUrl : CrawlUrl) (fuel : Nat) (url : CrawlUrl)
    (hmem : url ∈ crawlFetched fetch parseIp nf config al startUrl fuel) :
    (url.scheme = "http" ∨ url.scheme = "https") ∧
    url.host.getD "" = startUrl.host.getD "" ∧
    (∀ e ∈ config.excludePatterns, globMatch (globTokens e.data) url.path.data = false) ∧
    (config.includePatterns = [] ∨
      ∃ i ∈ config.includePatterns, globMatch (globTokens i.data) url.path.data = true) := by
  have hg := crawlLoop_guard fetch parseIp nf (CrawlScope.ofStart startUrl config) config al
    fuel [(startUrl, 0)] [] [] url hmem
  rcases hg with hin | ⟨hscope, _⟩
  · simp at hin
  · have hc := inScope_components _ _ hscope
    refine ⟨hc.1, hc.2.1, ?_, ?_⟩
    · intro e he
      refine hc.2.2.1 (globTokens e.data) ?_
      show globTokens e.data ∈ (config.excludePatterns.filterMap globToRegex)
      rw [filterMap_globToRegex]
      exact List.mem_map_of_mem _ he
    · rcases hc.2.2.2 with hemp | ⟨p, hp, hmatch⟩
      · left
        have : config.includePatterns.map (fun s => globTokens s.data) = [] := by
          rw [← filterMap_globToRegex]
          exact hemp
        exact List.map_eq_nil_iff.mp this
      · right
        have hp' : p ∈ config.includePatterns.map (fun s => globTokens s.data) := by
          rw [← filterMap_globToRegex]
          exact hp
        obtain ⟨i, hi, hip⟩ := List.mem_map.mp hp'
        exact ⟨i, hi, by rw [hip]; exact hmatch⟩

/-- Witness for C6: a fetched URL under a configuration with one exclude
glob satisfies all four scope conditions. -/
theorem C6_crawl_scope_invariant_witness :
    wStartUrl ∈ crawlFetched wFetch wParseIp wNf wConfigEx false wStartUrl 3 ∧
      ((wStartUrl.scheme = "http" ∨ wStartUrl.scheme = "https") ∧
       wStartUrl.host.getD "" = wStartUrl.host.getD "" ∧
       (∀ e ∈ wConfigEx.excludePatterns,
         globMatch (globTokens e.data) wStartUrl.path.data = false) ∧
       (wConfigEx.includePatterns = [] ∨
         ∃ i ∈ wConfigEx.includePatterns,
           globMatch (globTokens i.data) wStartUrl.path.data = true)) :=
  ⟨by decide,
   C6_crawl_scope_invariant wFetch wParseIp wNf wConfigEx false wStartUrl 3 wStartUrl (by decide)⟩

/-! ## `shared/src/types.rs` and `core/src/toc.rs` — TOC model and builder -/

/-- Split on a separator character, keeping empty segments (Rust `str::split`). -/
def splitOnChar (sep : Char) : List Char → List (List Char)
  | [] => [[]]
  | c :: rest =>
    if c = sep then [] :: splitOnChar sep rest
    else
      match splitOnChar sep rest with
      | l :: ls => (c :: l) :: ls
      | [] => [[c]]

/-- Join segments with a separator character (Rust `join`). -/
def joinWithChar (sep : Char) : List (List Char) → List Char
  | [] => []
  | [l] => l
  | l :: ls => l ++ sep :: joinWithChar sep ls

/-- Rust `str::split_whitespace`: whitespace-separated words, empties dropped. -/
def splitWhitespaceAux (fuel : Nat) (cs : List Char) : List (List Char) :=
  match fuel with
  | 0 => []
  | fuel + 1 =>
    let cs' := cs.dropWhile asciiWs
    match cs' with
    | [] => []
    | _ =>
      let w := cs'.takeWhile (fun c => !asciiWs c)
      w :: splitWhitespaceAux fuel (cs'.drop w.length)

def splitWhitespace (cs : List Char) : List (List Char) :=
  splitWhitespaceAux (cs.length + 1) cs

/-- A `TocEntry` of `toc.json`: title, path, optional source URL and summary,
and nested children. -/
inductive TocEntry where
  | mk (title : String) (path : String) (sourceUrl : Option String)
      (summary : Option String) (children : List TocEntry)

def TocEntry.title : TocEntry → String
  | .mk t _ _ _ _ => t

def TocEntry.path : TocEntry → String
  | .mk _ p _ _ _ => p

def TocEntry.children : TocEntry → List TocEntry
  | .mk _ _ _ _ cs => cs

/-- Root structure of `toc.json`. -/
structure Toc where
  sections : List TocEntry

/-- The `PageMeta` fields consumed by the TOC builder and the update diff. -/
structure PageMeta where
  url : String
  path : String
  title : Option String
  contentHash : String
  deriving DecidableEq

/-- Byte-lexicographic ordering of Rust `String` comparison (UTF-8 byte order
agrees with code-point order). -/
def cmpCharList : List Char → List Char → Ordering
  | [], [] => .eq
  | [], _ :: _ => .lt
  | _ :: _, [] => .gt
  | a :: as, b :: bs =>
    if a.toNat < b.toNat then .lt
    else if b.toNat < a.toNat then .gt
    else cmpCharList as bs

/-- Model of `str::to_lowercase` (ASCII case mapping). -/
def lowerStr (s : String) : List Char := s.data.map Char.toLower

/-- The index test of `sort_entries`:
`a.path.ends_with("index") || a.path == "index"`. -/
def sortIsIndex (p : String) : Bool := strEnds p.data "index".data || p == "index"

/-- The comparator passed to `sort_by` in `sort_entries`. -/
def cmpEntries (a b : TocEntry) : Ordering :=
  match sortIsIndex a.path, sortIsIndex b.path with
  | true, false => .lt
  | false, true => .gt
  | _, _ => cmpCharList (lowerStr a.title) (lowerStr b.title)

/-- Sort one entry's subtree: recursively sort children, then stably sort the
level with the comparator (the source sorts the level first and then recurses;
the two orders agree because the comparator ignores children).  `fuel` bounds
the nesting depth. -/
def sortEntryF (fuel : Nat) (e : TocEntry) : TocEntry :=
  match fuel with
  | 0 => e
  | fuel + 1 =>
    match e with
    | .mk t p u s cs =>
      .mk t p u s
        (List.insertionSort (fun a b => cmpEntries a b ≠ .gt) (cs.map (sortEntryF fuel)))

/-- Translation of `sort_entries` (stable sort by `cmpEntries`, recursing
into children). -/
def sortEntries (fuel : Nat) (es : List TocEntry) : List TocEntry :=
  List.insertionSort (fun a b => cmpEntries a b ≠ .gt) (es.map (sortEntryF fuel))

/-- Translation of `title_from_path`. -/
def titleFromPath (path : String) : String :=
  let segment := (splitOnChar '/' path.data).getLastD path.data
  if segment = "index".data then "Overview"
  else
    let spaced := segment.map (fun c => if c = '-' || c = '_' then ' ' else c)
    let words := splitWhitespace spaced
    let capped := words.map (fun w =>
      match w with
      | [] => []
      | c :: rest => c.toUpper :: rest)
    ⟨joinWithChar ' ' capped⟩

/-- Translation of `parent_path`. -/
def parentPath (path : String) : Option String :=
  let parts := splitOnChar '/' path.data
  if parts.length ≤ 1 then none
  else some ⟨joinWithChar '/' parts.dropLast⟩

/-- The entry built for one page in `build_toc`. -/
def pageEntry (page : PageMeta) : TocEntry :=
  .mk (page.title.getD (titleFromPath page.path)) page.path (some page.url) none []

/-- Append an entry under a key of the `parent → children` map
(`section_map.entry(parent).or_default().push(entry)`). -/
def mapPush (m : List (String × List TocEntry)) (key : String) (e : TocEntry) :
    List (String × List TocEntry) :=
  match m with
  | [] => [(key, [e])]
  | (k, es) :: rest =>
    if k = key then (k, es ++ [e]) :: rest else (k, es) :: mapPush rest key e

/-- First phase of the page loop of `build_toc`: root entries in page order
and the parent → children map. -/
def collectEntries : List PageMeta → List TocEntry × List (String × List TocEntry)
  | [] => ([], [])
  | page :: rest =>
    let (roots, m) := collectEntries rest
    let entry := pageEntry page
    match parentPath page.path with
    | some parent => (roots, mapPush m parent entry)
    | none => (entry :: roots, m)

/-- `section_map.remove(key)`: the removed children (if present) and the
remaining map. -/
def mapRemove (m : List (String × List TocEntry)) (key : String) :
    Option (List TocEntry) × List (String × List TocEntry) :=
  match m with
  | [] => (none, [])
  | (k, es) :: rest =>
    if k = key then (some es, rest)
    else
      let (r, rest') := mapRemove rest key
      (r, (k, es) :: rest')

/-- First loop of `build_hierarchy`: root entries adopt (and sort) the
children stored under their own path. -/
def adoptChildren (fuel : Nat) :
    List TocEntry → List (String × List TocEntry) →
      List TocEntry × List (String × List TocEntry)
  | [], m => ([], m)
  | e :: rest, m =>
    match mapRemove m e.path with
    | (some cs, m') =>
      let e' := TocEntry.mk e.title e.path
        (match e with | .mk _ _ u _ _ => u) (match e with | .mk _ _ _ s _ => s)
        (sortEntries fuel cs)
      let (rest', m'') := adoptChildren fuel rest m'
      (e' :: rest', m'')
    | (none, m') =>
      let (rest', m'') := adoptChildren fuel rest m'
      (e :: rest', m'')

/-- Translation of `build_hierarchy`: adopt children, then turn the
remaining sections — sorted by key — into new root entries. -/
def buildHierarchy (fuel : Nat) (rootEntries : List TocEntry)
    (sectionMap : List (String × List TocEntry)) : List TocEntry :=
  let (roots, remaining0) := adoptChildren fuel rootEntries sectionMap
  let remaining := List.insertionSort
    (fun a b => cmpCharList a.1.data b.1.data ≠ .gt) remaining0
  roots ++ remaining.map (fun kv =>
    TocEntry.mk (titleFromPath kv.1) kv.1 none none (sortEntries fuel kv.2))

/-- The build-from-page-paths branch of `build_toc`. -/
def buildTocFromPages (fuel : Nat) (pages : List PageMeta) : Toc :=
  let (roots, m) := collectEntries pages
  let sections := buildHierarchy fuel roots m
  ⟨sortEntries fuel sections⟩

/-- Translation of `build_toc`: the adapter TOC is used verbatim when it is
non-empty and has at least `pages.len() / 2` entries (integer, i.e. floor,
division); otherwise the TOC is built from page paths. -/
def buildToc (fuel : Nat) (pages : List PageMeta) (adapterToc : List TocEntry) : Toc :=
  if !adapterToc.isEmpty && decide (adapterToc.length ≥ pages.length / 2) then
    ⟨adapterToc⟩
  else buildTocFromPages fuel pages

-- sanity checks against the Rust unit tests of toc.rs
example : titleFromPath "getting-started" = "Getting Started" := by decide

example : titleFromPath "api_reference" = "Api Reference" := by decide

example : titleFromPath "index" = "Overview" := by decide

example : titleFromPath "guide/installation" = "Installation" := by decide

example :
    sortEntries 1
      [.mk "Zebra" "zebra" none none [], .mk "Overview" "index" none none [],
       .mk "Alpha" "alpha" none none []] =
      [.mk "Overview" "index" none none [], .mk "Alpha" "alpha" none none [],
       .mk "Zebra" "zebra" none none []] := rfl

example :
    buildTocFromPages 2
      [⟨"https://e.com/guide", "guide", some "Guide", "h"⟩,
       ⟨"https://e.com/guide/installation", "guide/installation", some "Installation", "h"⟩,
       ⟨"https://e.com/guide/quick-start", "guide/quick-start", some "Quick Start", "h"⟩,
       ⟨"https://e.com/api", "api", some "API", "h"⟩] =
      ⟨[.mk "API" "api" (some "https://e.com/api") none [],
        .mk "Guide" "guide" (some "https://e.com/guide") none
          [.mk "Installation" "guide/installation"
             (some "https://e.com/guide/installation") none [],
           .mk "Quick Start" "guide/quick-start"
             (some "https://e.com/guide/quick-start") none []]]⟩ := rfl

/-- The specification's notion of an index entry: path equal to `"index"` or
ending in `"/index"`. -/
def specIsIndex (p : String) : Bool := p == "index" || strEnds p.data "/index".data

/-- Entries of the C9 counterexample. -/
def c9A : TocEntry := .mk "A" "a" none none []

def c9Z : TocEntry := .mk "Z" "myindex" none none []

/-- C9: evaluation of `sort_entries` at the failing input.  Neither path is
an index path in the specification's sense and `"A" < "Z"` case-insensitively,
so the specification orders the entries `[A, Z]`; the code's
`path.ends_with("index")` test treats `"myindex"` as an index entry and sorts
it first, producing `[Z, A]`. -/
theorem C9_sort_entries_myindex_first :
    sortEntries 1 [c9A, c9Z] = [c9Z, c9A] ∧
    specIsIndex c9Z.path = false ∧ specIsIndex c9A.path = false ∧
    cmpCharList (lowerStr c9A.title) (lowerStr c9Z.title) = .lt :=
  ⟨rfl, rfl, rfl, rfl⟩

/-- Pages of the C8 counterexample (three flat pages). -/
def c8Pages : List PageMeta :=
  [⟨"https://e.com/alpha", "alpha", some "Alpha", "h1"⟩,
   ⟨"https://e.com/beta", "beta", some "Beta", "h2"⟩,
   ⟨"https://e.com/gamma", "gamma", some "Gamma", "h3"⟩]

/-- Adapter TOC of the C8 counterexample (one entry). -/
def c8Adapter : List TocEntry := [.mk "Zeta" "zeta" none none []]

/-- C8 counterexample: with 3 pages and a 1-entry adapter TOC the code uses
the adapter TOC verbatim (`1 ≥ 3 / 2` under floor division), although
`1 < ⌈3/2⌉ = 2`, so the claimed ceiling threshold would demand the TOC be
built from page paths — and the path-built TOC differs. -/
theorem C8_counterexample :
    buildToc 1 c8Pages c8Adapter = ⟨c8Adapter⟩ ∧
    ¬ (c8Adapter.length ≥ (c8Pages.length + 1) / 2) ∧
    buildToc 1 c8Pages c8Adapter ≠ buildTocFromPages 1 c8Pages := by
  refine ⟨rfl, by decide, fun h => ?_⟩
  have hmap := congrArg (fun t => t.sections.map TocEntry.path) h
  exact absurd hmap (by decide)

/-- C8 (amended): `build_toc` uses a non-empty adapter TOC verbatim exactly
when it has at least `⌊pages/2⌋` (floor, not ceiling) entries; with fewer it
builds the TOC from page paths. -/
theorem C8_adapter_toc_floor_threshold (fuel : Nat) (pages : List PageMeta)
    (adapterToc : List TocEntry) (hne : adapterToc ≠ []) :
    (adapterToc.length ≥ pages.length / 2 →
      buildToc fuel pages adapterToc = ⟨adapterToc⟩) ∧
    (adapterToc.length < pages.length / 2 →
      buildToc fuel pages adapterToc = buildTocFromPages fuel pages) := by
  constructor
  · intro h
    have hb : adapterToc.isEmpty = false := by simpa [List.isEmpty_iff] using hne
    simp [buildToc, hb, h]
  · intro h
    have hlt : ¬ (adapterToc.length ≥ pages.length / 2) := by omega
    simp [buildToc, hlt]

/-- Witness for C8: at the concrete input the amended threshold applies and
the adapter TOC is used verbatim. -/
theorem C8_adapter_toc_floor_threshold_witness :
    c8Adapter ≠ [] ∧ buildToc 1 c8Pages c8Adapter = ⟨c8Adapter⟩ :=
  ⟨List.cons_ne_nil _ _,
   (C8_adapter_toc_floor_threshold 1 c8Pages c8Adapter (List.cons_ne_nil _ _)).1 (by decide)⟩

/-! ## `core/src/update.rs` — page diff -/

/-- The `FetchedPage` fields consumed by `diff_pages` (its `meta`). -/
structure FetchedPageM where
  meta : PageMeta
  deriving DecidableEq

/-- Result of `diff_pages`. -/
structure PageDiff where
  newPages : List String
  changedPages : List String
  unchangedPages : List String
  removedPages : List String
  deriving DecidableEq

/-- Lookup in `existing_by_path` (a `HashMap` collected from an iterator:
for duplicate paths the later entry wins, hence the reverse search). -/
def lookupByPath (existing : List PageMeta) (path : String) : Option PageMeta :=
  existing.reverse.find? (fun p => p.path == path)

/-- The fetched-page loop of `diff_pages`, in fetch order:
`(new, changed, unchanged)` path lists. -/
def classifyFetched (existing : List PageMeta) (force : Bool) :
    List FetchedPageM → List String × List String × List String
  | [] => ([], [], [])
  | page :: rest =>
    let (n, c, u) := classifyFetched existing force rest
    let path := page.meta.path
    match lookupByPath existing path with
    | some old =>
      if !force && old.contentHash == page.meta.contentHash then (n, c, path :: u)
      else (n, path :: c, u)
    | none => (path :: n, c, u)

/-- The removed-page loop of `diff_pages`: stored paths absent from the fetch. -/
def removedOf (fetched : List FetchedPageM) : List PageMeta → List String
  | [] => []
  | old :: rest =>
    if fetched.any (fun f => f.meta.path == old.path) then removedOf fetched rest
    else old.path :: removedOf fetched rest

/-- Translation of `diff_pages`. -/
def diffPages (existing : List PageMeta) (fetched : List FetchedPageM) (force : Bool) :
    PageDiff :=
  let (n, c, u) := classifyFetched existing force fetched
  ⟨n, c, u, removedOf fetched existing⟩

/-- The fetched pages corresponding to a stored page set (same paths and
content hashes). -/
def fetchedOf (pages : List PageMeta) : List FetchedPageM :=
  pages.map FetchedPageM.mk

-- sanity check against the mixed-scenario Rust unit test of update.rs
example :
    diffPages
      [⟨"u", "page-a", none, "ha"⟩, ⟨"u", "page-b", none, "hb"⟩, ⟨"u", "page-c", none, "hc"⟩]
      [⟨⟨"u", "page-a", none, "ha"⟩⟩, ⟨⟨"u", "page-b", none, "hb-changed"⟩⟩,
       ⟨⟨"u", "page-d", none, "hd"⟩⟩]
      false =
      ⟨["page-d"], ["page-b"], ["page-a"], ["page-c"]⟩ := by decide

theorem lookupByPath_mem {l : List PageMeta} {path : String} {old : PageMeta}
    (h : lookupByPath l path = some old) : old ∈ l ∧ old.path = path := by
  refine ⟨List.mem_reverse.mp (List.mem_of_find?_eq_some h), ?_⟩
  have := List.find?_some h
  simpa using this

theorem lookupByPath_eq_none {l : List PageMeta} {path : String} :
    lookupByPath l path = none ↔ ∀ old ∈ l, old.path ≠ path := by
  constructor
  · intro h old hold hpath
    have := List.find?_eq_none.mp h old (List.mem_reverse.mpr hold)
    simp [hpath] at this
  · intro h
    refine List.find?_eq_none.mpr ?_
    intro old hold
    simpa using h old (List.mem_reverse.mp hold)

theorem find?_path_self_of_nodup {l : List PageMeta}
    (hnd : (l.map (fun p => p.path)).Nodup) {p : PageMeta} (hp : p ∈ l) :
    l.find? (fun q => q.path == p.path) = some p := by
  induction l with
  | nil => cases hp
  | cons q rest ih =>
    have hnd2 : (q.path :: rest.map (fun p => p.path)).Nodup := by
      simpa only [List.map_cons] using hnd
    have hnd' := List.nodup_cons.mp hnd2
    rcases List.mem_cons.mp hp with hq | hmem
    · subst hq
      rw [List.find?_cons_of_pos _ (by simp)]
    · have hqp : q.path ≠ p.path := fun he =>
        hnd'.1 (he ▸ List.mem_map_of_mem (fun p => p.path) hmem)
      rw [List.find?_cons_of_neg _ (by simp [hqp])]
      exact ih hnd'.2 hmem

/-- With pairwise-distinct paths, the lookup of an element's own path finds
that element. -/
theorem lookupByPath_self {l : List PageMeta}
    (hnd : (l.map (fun p => p.path)).Nodup) {p : PageMeta} (hp : p ∈ l) :
    lookupByPath l p.path = some p := by
  unfold lookupByPath
  refine find?_path_self_of_nodup ?_ (List.mem_reverse.mpr hp)
  rw [List.map_reverse]
  exact List.nodup_reverse.mpr hnd

/-- Every path placed by the fetched-page loop is the path of a fetched page. -/
theorem classifyFetched_subset (existing : List PageMeta) (force : Bool) :
    ∀ fetched : List FetchedPageM,
      (∀ x ∈ (classifyFetched existing force fetched).1,
        x ∈ fetched.map (fun f => f.meta.path)) ∧
      (∀ x ∈ (classifyFetched existing force fetched).2.1,
        x ∈ fetched.map (fun f => f.meta.path)) ∧
      (∀ x ∈ (classifyFetched existing force fetched).2.2,
        x ∈ fetched.map (fun f => f.meta.path)) := by
  intro fetched
  induction fetched with
  | nil => exact ⟨by simp [classifyFetched], by simp [classifyFetched], by simp [classifyFetched]⟩
  | cons g rest ih =>
    simp only [classifyFetched]
    rcases hc : classifyFetched existing force rest with ⟨n, c, u⟩
    rw [hc] at ih
    split
    · split
      · refine ⟨?_, ?_, ?_⟩ <;> intro x hx <;> simp only [List.map_cons, List.mem_cons]
        · exact .inr (ih.1 x hx)
        · exact .inr (ih.2.1 x hx)
        · rcases List.mem_cons.mp hx with hx | hx
          · exact .inl hx
          · exact .inr (ih.2.2 x hx)
      · refine ⟨?_, ?_, ?_⟩ <;> intro x hx <;> simp only [List.map_cons, List.mem_cons]
        · exact .inr (ih.1 x hx)
        · rcases List.mem_cons.mp hx with hx | hx
          · exact .inl hx
          · exact .inr (ih.2.1 x hx)
        · exact .inr (ih.2.2 x hx)
    · refine ⟨?_, ?_, ?_⟩ <;> intro x hx <;> simp only [List.map_cons, List.mem_cons]
      · rcases List.mem_cons.mp hx with hx | hx
        · exact .inl hx
        · exact .inr (ih.1 x hx)
      · exact .inr (ih.2.1 x hx)
      · exact .inr (ih.2.2 x hx)

/-- Membership characterisation of the three fetched-page classifications,
for fetched lists with pairwise-distinct paths. -/
theorem classifyFetched_mem (existing : List PageMeta) (force : Bool) :
    ∀ (fetched : List FetchedPageM),
      (fetched.map (fun f => f.meta.path)).Nodup →
      ∀ f ∈ fetched,
        (f.meta.path ∈ (classifyFetched existing force fetched).1 ↔
          lookupByPath existing f.meta.path = none) ∧
        (f.meta.path ∈ (classifyFetched existing force fetched).2.1 ↔
          ∃ old, lookupByPath existing f.meta.path = some old ∧
            (force = true ∨ old.contentHash ≠ f.meta.contentHash)) ∧
        (f.meta.path ∈ (classifyFetched existing force fetched).2.2 ↔
          force = false ∧ ∃ old, lookupByPath existing f.meta.path = some old ∧
            old.contentHash = f.meta.contentHash) := by
  intro fetched
  induction fetched with
  | nil =>
    intro _ f hf
    cases hf
  | cons g rest ih =>
    intro hnd f hf
    have hnd2 : (g.meta.path :: rest.map (fun f => f.meta.path)).Nodup := by
      simpa only [List.map_cons] using hnd
    have hnd' := List.nodup_cons.mp hnd2
    have hsub := classifyFetched_subset existing force rest
    simp only [classifyFetched]
    rcases hc : classifyFetched existing force rest with ⟨n, c, u⟩
    rw [hc] at hsub
    rcases List.mem_cons.mp hf with hfg | hmem
    · subst hfg
      have hnotn : f.meta.path ∉ n := fun hin => hnd'.1 (hsub.1 _ hin)
      have hnotc : f.meta.path ∉ c := fun hin => hnd'.1 (hsub.2.1 _ hin)
      have hnotu : f.meta.path ∉ u := fun hin => hnd'.1 (hsub.2.2 _ hin)
      split
      · next old heq =>
        split
        · next hbr =>
          have hbr' : force = false ∧ old.contentHash = f.meta.contentHash := by
            simpa [Bool.and_eq_true, Bool.not_eq_true'] using hbr
          refine ⟨?_, ?_, ?_⟩
          · simp [hnotn, heq]
          · constructor
            · intro h
              exact absurd h hnotc
            · rintro ⟨old', heq', hdisj⟩
              rw [heq] at heq'
              injection heq' with heq'
              subst heq'
              rcases hdisj with hft | hne
              · rw [hbr'.1] at hft
                cases hft
              · exact absurd hbr'.2 hne
          · simp only [List.mem_cons]
            constructor
            · intro _
              exact ⟨hbr'.1, old, heq, hbr'.2⟩
            · intro _
              exact .inl trivial
        · next hbr =>
          have hbr' : force = true ∨ old.contentHash ≠ f.meta.contentHash := by
            by_cases hft : force = true
            · exact .inl hft
            · right
              intro hheq
              have hff : force = false := by
                cases force
                · rfl
                · exact absurd rfl hft
              exact hbr (by simp [hff, hheq])
          refine ⟨?_, ?_, ?_⟩
          · simp [hnotn, heq]
          · simp only [List.mem_cons]
            constructor
            · intro _
              exact ⟨old, heq, hbr'⟩
            · intro _
              exact .inl trivial
          · constructor
            · intro h
              exact absurd h hnotu
            · rintro ⟨hff, old', heq', hhash⟩
              rw [heq] at heq'
              injection heq' with heq'
              subst heq'
              rcases hbr' with hft | hne
              · rw [hff] at hft
                cases hft
              · exact absurd hhash hne
      · next heq =>
        refine ⟨?_, ?_, ?_⟩
        · simp [heq]
        · constructor
          · intro h
            exact absurd h hnotc
          · rintro ⟨old', heq', _⟩
            rw [heq] at heq'
            cases heq'
        · constructor
          · intro h
            exact absurd h hnotu
          · rintro ⟨_, old', heq', _⟩
            rw [heq] at heq'
            cases heq'
    · have hne : g.meta.path ≠ f.meta.path := fun he =>
        hnd'.1 (he ▸ List.mem_map_of_mem (fun f => f.meta.path) hmem)
      have ihf := ih hnd'.2 f hmem
      rw [hc] at ihf
      split
      · split
        · exact ⟨by simpa using ihf.1, by simpa using ihf.2.1,
            by simpa [List.mem_cons, hne.symm] using ihf.2.2⟩
        · exact ⟨by simpa using ihf.1, by simpa [List.mem_cons, hne.symm] using ihf.2.1,
            by simpa using ihf.2.2⟩
      · exact ⟨by simpa [List.mem_cons, hne.symm] using ihf.1, by simpa using ihf.2.1,
          by simpa using ihf.2.2⟩

/-- Membership characterisation of the removed-page loop. -/
theorem removedOf_mem (fetched : List FetchedPageM) :
    ∀ (existing : List PageMeta) (q : String),
      q ∈ removedOf fetched existing ↔
        (∃ old ∈ existing, old.path = q) ∧ ∀ f ∈ fetched, f.meta.path ≠ q := by
  intro existing
  induction existing with
  | nil =>
    intro q
    simp [removedOf]
  | cons old rest ih =>
    intro q
    simp only [removedOf]
    split
    · next hany =>
      rw [ih q]
      constructor
      · rintro ⟨⟨o, ho, hop⟩, hnot⟩
        exact ⟨⟨o, List.mem_cons_of_mem _ ho, hop⟩, hnot⟩
      · rintro ⟨⟨o, ho, hop⟩, hnot⟩
        rcases List.mem_cons.mp ho with hoe | hmem
        · subst hoe
          obtain ⟨f, hf, hfp⟩ := List.any_eq_true.mp hany
          have hfp' : f.meta.path = o.path := by simpa using hfp
          exact absurd (hfp'.trans hop) (hnot f hf)
        · exact ⟨⟨o, hmem, hop⟩, hnot⟩
    · next hany =>
      constructor
      · intro hq
        rcases List.mem_cons.mp hq with hq | h
        · subst hq
          refine ⟨⟨old, List.mem_cons_self _ _, rfl⟩, ?_⟩
          intro f hf hpq
          exact hany (List.any_eq_true.mpr ⟨f, hf, by simp [hpq]⟩)
        · obtain ⟨⟨o, ho, hop⟩, hnot⟩ := (ih q).mp h
          exact ⟨⟨o, List.mem_cons_of_mem _ ho, hop⟩, hnot⟩
      · rintro ⟨⟨o, ho, hop⟩, hnot⟩
        rcases List.mem_cons.mp ho with hoe | hmem
        · subst hoe
          exact List.mem_cons.mpr (.inl hop.symm)
        · exact List.mem_cons.mpr (.inr ((ih q).mpr ⟨⟨o, hmem, hop⟩, hnot⟩))

/-- Diffing a page set against itself with `force = false` classifies every
page as unchanged. -/
theorem classifyFetched_self (P : List PageMeta)
    (hnd : (P.map (fun p => p.path)).Nodup) :
    ∀ fs : List PageMeta, (∀ p ∈ fs, p ∈ P) →
      classifyFetched P false (fetchedOf fs) = ([], [], fs.map (fun p => p.path)) := by
  intro fs
  induction fs with
  | nil => intro _; rfl
  | cons p rest ih =>
    intro hsubset
    have hl := lookupByPath_self hnd (hsubset p (List.mem_cons_self p rest))
    simp only [fetchedOf, List.map_cons, classifyFetched]
    rw [show List.map FetchedPageM.mk rest = fetchedOf rest from rfl,
      ih (fun q hq => hsubset q (List.mem_cons_of_mem p hq))]
    simp [hl]

/-- Diffing a page set against itself with `force = true` classifies every
page as changed. -/
theorem classifyFetched_self_force (P : List PageMeta)
    (hnd : (P.map (fun p => p.path)).Nodup) :
    ∀ fs : List PageMeta, (∀ p ∈ fs, p ∈ P) →
      classifyFetched P true (fetchedOf fs) = ([], fs.map (fun p => p.path), []) := by
  intro fs
  induction fs with
  | nil => intro _; rfl
  | cons p rest ih =>
    intro hsubset
    have hl := lookupByPath_self hnd (hsubset p (List.mem_cons_self p rest))
    simp only [fetchedOf, List.map_cons, classifyFetched]
    rw [show List.map FetchedPageM.mk rest = fetchedOf rest from rfl,
      ih (fun q hq => hsubset q (List.mem_cons_of_mem p hq))]
    simp [hl]

/-- No page of a set is removed when diffing the set against itself. -/
theorem removedOf_self (P : List PageMeta) :
    ∀ ex : List PageMeta, (∀ o ∈ ex, o ∈ P) → removedOf (fetchedOf P) ex = [] := by
  intro ex
  induction ex with
  | nil => intro _; rfl
  | cons old rest ih =>
    intro hsubset
    have hany : (fetchedOf P).any (fun f => f.meta.path == old.path) = true :=
      List.any_eq_true.mpr
        ⟨FetchedPageM.mk old,
         List.mem_map_of_mem FetchedPageM.mk (hsubset old (List.mem_cons_self _ _)),
         by simp⟩
    simp only [removedOf, hany, if_pos]
    exact ih (fun q hq => hsubset q (List.mem_cons_of_mem old hq))

theorem diffPages_eq (existing : List PageMeta) (fetched : List FetchedPageM) (force : Bool) :
    diffPages existing fetched force =
      ⟨(classifyFetched existing force fetched).1,
       (classifyFetched existing force fetched).2.1,
       (classifyFetched existing force fetched).2.2,
       removedOf fetched existing⟩ := by
  unfold diffPages
  rcases classifyFetched existing force fetched with ⟨n, c, u⟩
  rfl

/-- C10: diffing a page set against itself classifies every path as
unchanged (`force = false`) or as changed (`force = true`) with no other
entries, and in general each fetched path goes to unchanged, changed or new
by the hash comparison, while each stored path absent from the fetch is
removed. -/
theorem C10_diff_pages_classification
    (P existing : List PageMeta) (fetched : List FetchedPageM) (force : Bool)
    (hndP : (P.map (fun p => p.path)).Nodup)
    (hndE : (existing.map (fun p => p.path)).Nodup)
    (hndF : (fetched.map (fun f => f.meta.path)).Nodup) :
    diffPages P (fetchedOf P) false = ⟨[], [], P.map (fun p => p.path), []⟩ ∧
    diffPages P (fetchedOf P) true = ⟨[], P.map (fun p => p.path), [], []⟩ ∧
    (∀ f ∈ fetched,
      (f.meta.path ∈ (diffPages existing fetched force).unchangedPages ↔
        force = false ∧ ∃ old ∈ existing, old.path = f.meta.path ∧
          old.contentHash = f.meta.contentHash) ∧
      (f.meta.path ∈ (diffPages existing fetched force).changedPages ↔
        ∃ old ∈ existing, old.path = f.meta.path ∧
          (force = true ∨ old.contentHash ≠ f.meta.contentHash)) ∧
      (f.meta.path ∈ (diffPages existing fetched force).newPages ↔
        ∀ old ∈ existing, old.path ≠ f.meta.path)) ∧
    (∀ q, q ∈ (diffPages existing fetched force).removedPages ↔
      (∃ old ∈ existing, old.path = q) ∧ ∀ f ∈ fetched, f.meta.path ≠ q) := by
  have hex : ∀ (fp : String) (Q : PageMeta → Prop),
      (∃ old, lookupByPath existing fp = some old ∧ Q old) ↔
        ∃ old ∈ existing, old.path = fp ∧ Q old := by
    intro fp Q
    constructor
    · rintro ⟨old, hl, hq⟩
      obtain ⟨hmem, hpath⟩ := lookupByPath_mem hl
      exact ⟨old, hmem, hpath, hq⟩
    · rintro ⟨old, hmem, hpath, hq⟩
      refine ⟨old, ?_, hq⟩
      rw [← hpath]
      exact lookupByPath_self hndE hmem
  refine ⟨?_, ?_, ?_, ?_⟩
  · rw [diffPages_eq, classifyFetched_self P hndP P (fun _ h => h),
      removedOf_self P P (fun _ h => h)]
  · rw [diffPages_eq, classifyFetched_self_force P hndP P (fun _ h => h),
      removedOf_self P P (fun _ h => h)]
  · intro f hf
    have hm := classifyFetched_mem existing force fetched hndF f hf
    rw [diffPages_eq]
    refine ⟨?_, ?_, ?_⟩
    · rw [show (PageDiff.mk (classifyFetched existing force fetched).1
          (classifyFetched existing force fetched).2.1
          (classifyFetched existing force fetched).2.2
          (removedOf fetched existing)).unchangedPages =
          (classifyFetched existing force fetched).2.2 from rfl, hm.2.2]
      rw [hex f.meta.path (fun old => old.contentHash = f.meta.contentHash)]
    · rw [show (PageDiff.mk (classifyFetched existing force fetched).1
          (classifyFetched existing force fetched).2.1
          (classifyFetched existing force fetched).2.2
          (removedOf fetched existing)).changedPages =
          (classifyFetched existing force fetched).2.1 from rfl, hm.2.1]
      exact hex f.meta.path
        (fun old => force = true ∨ old.contentHash ≠ f.meta.contentHash)
    · rw [show (PageDiff.mk (classifyFetched existing force fetched).1
          (classifyFetched existing force fetched).2.1
          (classifyFetched existing force fetched).2.2
          (removedOf fetched existing)).newPages =
          (classifyFetched existing force fetched).1 from rfl, hm.1]
      exact lookupByPath_eq_none
  · intro q
    rw [diffPages_eq]
    exact removedOf_mem fetched existing q

/-- Witness pages for C10. -/
def c10Pages : List PageMeta :=
  [⟨"https://e.com/index", "index", some "Home", "ha"⟩,
   ⟨"https://e.com/guide", "guide", some "Guide", "hb"⟩]

/-- Witness for C10: the identity diffs and the classification at a concrete
page set. -/
theorem C10_diff_pages_classification_witness :
    diffPages c10Pages (fetchedOf c10Pages) false =
      ⟨[], [], ["index", "guide"], []⟩ ∧
    diffPages c10Pages (fetchedOf c10Pages) true =
      ⟨[], ["index", "guide"], [], []⟩ :=
  ⟨((C10_diff_pages_classification c10Pages c10Pages (fetchedOf c10Pages) false
      (by decide) (by decide) (by decide)).1),
   ((C10_diff_pages_classification c10Pages c10Pages (fetchedOf c10Pages) true
      (by decide) (by decide) (by decide)).2.1)⟩

/-! ## `core/src/assembler.rs` and `core/src/update.rs` — manifest lifecycle

Timestamps (`chrono::DateTime<Utc>`) are modelled as abstract instants
(`Nat`); `Utc::now()` becomes an explicit `now` parameter. -/

/-- The manifest schema version constant of `shared/src/types.rs`. -/
def CURRENT_SCHEMA_VERSION : Nat := 1

/-- The `manifest.json` structure (the optional `config`/`artifacts`/
`enrichment` blocks are not involved in the claims and carried as unit-free
options of serialized text). -/
structure KbManifest where
  schemaVersion : Nat
  id : String
  name : String
  sourceUrl : String
  toolVersion : String
  createdAt : Nat
  updatedAt : Nat
  pageCount : Nat
  config : Option String
  artifacts : Option String
  enrichment : Option String
  deriving DecidableEq

/-- The `AssembleConfig` fields consumed by `build_manifest`. -/
structure AssembleConfig where
  kbId : String
  name : String
  sourceUrl : String
  outputRoot : String
  toolVersion : String
  deriving DecidableEq

/-- Translation of `build_manifest`: a fresh `now` is written into both
`created_at` and `updated_at` on every call. -/
def buildManifest (config : AssembleConfig) (pageCount : Nat) (now : Nat) : KbManifest :=
  { schemaVersion := CURRENT_SCHEMA_VERSION
    id := config.kbId
    name := config.name
    sourceUrl := config.sourceUrl
    toolVersion := config.toolVersion
    createdAt := now
    updatedAt := now
    pageCount := pageCount
    config := none
    artifacts := none
    enrichment := none }

/-- The manifest written to `manifest.json` by `assemble` (its
`write_json(&kb_dir.join("manifest.json"), &manifest)` step). -/
def assembleManifest (config : AssembleConfig) (pageCount : Nat) (now : Nat) : KbManifest :=
  buildManifest config pageCount now

/-- The manifest state after `update_kb`: the loaded manifest's `id`, `name`
and `source_url` are copied into a fresh `AssembleConfig` and `assemble`
rewrites `manifest.json` from scratch at time `now`. -/
def updateKbManifest (loaded : KbManifest) (toolVersion outputRoot : String)
    (pageCount : Nat) (now : Nat) : KbManifest :=
  assembleManifest
    ⟨loaded.id, loaded.name, loaded.sourceUrl, outputRoot, toolVersion⟩ pageCount now

/-- The manifest rewrite of `update_manifest` inside `assemble_artifacts`
(for contrast: it preserves `created_at` and only advances `updated_at`). -/
def updateManifestArtifacts (loaded : KbManifest) (artifacts enrichment : String)
    (now : Nat) : KbManifest :=
  { loaded with artifacts := some artifacts, enrichment := some enrichment, updatedAt := now }

/-- A concrete manifest created at instant 100. -/
def c1Manifest : KbManifest :=
  ⟨CURRENT_SCHEMA_VERSION, "0192aa00-0000-7000-8000-000000000000", "example-docs",
   "https://docs.example.com", "0.1.0", 100, 100, 3, none, none, none⟩

/-- C1: evaluation of the `update_kb` manifest rewrite at a concrete input.
A KB created at instant 100 and updated at instant 200 ends with
`created_at = 200`: the update resets `created_at` to the update time
instead of preserving it (while `assemble_artifacts`' own manifest rewrite,
by contrast, does preserve it). -/
theorem C1_update_kb_resets_created_at :
    (updateKbManifest c1Manifest "0.2.0" "var/kb" 4 200).createdAt = 200 ∧
    c1Manifest.createdAt = 100 ∧
    (updateKbManifest c1Manifest "0.2.0" "var/kb" 4 200).createdAt ≠ c1Manifest.createdAt ∧
    (updateKbManifest c1Manifest "0.2.0" "var/kb" 4 200).updatedAt = 200 ∧
    (updateManifestArtifacts c1Manifest "[]" "{}" 200).createdAt = c1Manifest.createdAt := by
  refine ⟨rfl, rfl, by decide, rfl, rfl⟩

/-! ## `core/src/enrichment.rs` — content truncation and prompt hashing -/

/-- Rust byte length of a string (`str::len`). -/
def strByteLen (s : String) : Nat := (utf8Bytes s.data).length

/-- The literal truncation marker appended by `truncate_content`. -/
def TRUNCATION_MARKER : String := "\n\n[... content truncated for LLM context window ...]"

/-- Take exactly `n` bytes from the front of a character list; `none` when
`n` is not a character boundary (the byte slice `&content[..n]` panics). -/
def takeBytes (n : Nat) (cs : List Char) : Option (List Char) :=
  match n with
  | 0 => some []
  | n + 1 =>
    match cs with
    | [] => none
    | c :: rest =>
      let sz := (utf8Char c).length
      if sz ≤ n + 1 then (takeBytes (n + 1 - sz) rest).map (c :: ·)
      else none

/-- Translation of `truncate_content`: `content.len()` is the byte length and
`&content[..max_chars]` slices bytes; `none` models the panic on a slice
that does not fall on a character boundary. -/
def truncateContent (content : String) (maxChars : Nat) : Option String :=
  if strByteLen content ≤ maxChars then some content
  else
    match takeBytes maxChars content.data with
    | some truncated => some ⟨truncated ++ TRUNCATION_MARKER.data⟩
    | none => none

-- sanity checks against the Rust unit tests of enrichment.rs
example : truncateContent "short text" 100 = some "short text" := by decide

example :
    truncateContent "hello world" 5 =
      some ("hello" ++ TRUNCATION_MARKER) := by decide

/-- C7: `truncate_content` evaluated at a multi-byte input.  With content
`"éa"` (3 bytes, 2 characters) and budget 1, the byte slice `&content[..1]`
cuts through the 2-byte `'é'` and panics (`none`); moreover the clip is by
bytes, not characters: five 2-byte `'é'`s clipped at 4 keep only 2
characters, not 4. -/
theorem C7_truncate_content_panics_on_utf8 :
    truncateContent "éa" 1 = none ∧
    truncateContent "ééééé" 4 = some ("éé" ++ TRUNCATION_MARKER) ∧
    truncateContent "ééééé" 4 ≠ some ("éééé" ++ TRUNCATION_MARKER) := by
  refine ⟨by decide, by decide, by decide⟩

/-! ## `discovery/src/lib.rs` and `discovery/src/parser.rs` -/

/-- The error kinds of `ContextBuilderError` reached by discovery. -/
inductive CBError where
  | network (msg : String)
  | validation (msg : String)
  | parse (msg : String)
  deriving DecidableEq

/-- Outcome of one HTTP fetch: a send failure, or a response with status,
optional `Content-Length` header, and body. -/
inductive FetchOutcome where
  | netErr (msg : String)
  | response (status : Nat) (contentLength : Option Nat) (body : String)
  deriving DecidableEq

/-- `MAX_RESPONSE_SIZE` (10 MB). -/
def MAX_RESPONSE_SIZE : Nat := 10 * 1024 * 1024

/-- Translation of `fetch_and_validate`: non-2xx is a network error, an
oversized `Content-Length` a validation error, and the body must start
(after `trim_start`) with `"# "`. -/
def fetchAndValidate (url : String) (o : FetchOutcome) : Except CBError String :=
  match o with
  | .netErr msg => .error (.network (url ++ ": " ++ msg))
  | .response status contentLength body =>
    if !(decide (200 ≤ status) && decide (status < 300)) then
      .error (.network (url ++ ": HTTP error"))
    else if (match contentLength with
        | some len => decide (len > MAX_RESPONSE_SIZE)
        | none => false) then
      .error (.validation (url ++ ": response too large"))
    else if !(strStarts (trimStart body.data) "# ".data) then
      .error (.validation (url ++ ": content does not start with an H1 heading"))
    else .ok body

/-- A parsed llms.txt entry (`- [Name](url)` or `- [Name](url): Notes`). -/
structure LlmsEntry where
  name : String
  url : String
  notes : Option String
  deriving DecidableEq

/-- A parsed llms.txt section (`## heading` with its entries). -/
structure LlmsSection where
  title : String
  entries : List LlmsEntry
  deriving DecidableEq

/-- Parsed representation of an llms.txt file. -/
structure LlmsParsed where
  title : String
  summary : Option String
  sections : List LlmsSection
  entries : List LlmsEntry
  deriving DecidableEq

/-- The `\s+(.+)$` continuation shared by the H1/H2 regexes, with the
leftmost-greedy backtracking of `(.+)` when only whitespace follows. -/
def capAfterWs (rest : List Char) : Option (List Char) :=
  let ws := rest.takeWhile asciiWs
  let tail := rest.drop ws.length
  if ws.length = 0 then none
  else if tail ≠ [] then some tail
  else if ws.length ≥ 2 then some [ws.getLastD ' ']
  else none

/-- Capture of `H1_RE` (`^#\s+(.+)$`) on a trimmed line. -/
def h1Cap (line : List Char) : Option (List Char) :=
  match line with
  | '#' :: rest => capAfterWs rest
  | _ => none

/-- Capture of `H2_RE` (`^##\s+(.+)$`) on a trimmed line. -/
def h2Cap (line : List Char) : Option (List Char) :=
  match line with
  | '#' :: '#' :: rest => capAfterWs rest
  | _ => none

/-- Capture of `BLOCKQUOTE_RE` (`^>\s*(.+)$`) on a trimmed line. -/
def bqCap (line : List Char) : Option (List Char) :=
  match line with
  | '>' :: rest =>
    let ws := rest.takeWhile asciiWs
    let tail := rest.drop ws.length
    if tail ≠ [] then some tail
    else if ws.length ≥ 1 then some [ws.getLastD ' ']
    else none
  | _ => none

/-- Capture of `LINK_RE`
(`^[-*]\s+\[([^\]]+)\]\(([^)]+)\)(?::\s*(.+))?$`) on a trimmed line. -/
def linkCap (line : List Char) : Option (List Char × List Char × Option (List Char)) :=
  match line with
  | c :: rest =>
    if c = '-' || c = '*' then
      let ws := rest.takeWhile asciiWs
      if ws.length = 0 then none
      else
        match rest.drop ws.length with
        | '[' :: r1 =>
          let nm := r1.takeWhile (· ≠ ']')
          if nm = [] then none
          else
            match r1.drop nm.length with
            | ']' :: '(' :: r2 =>
              let u := r2.takeWhile (· ≠ ')')
              if u = [] then none
              else
                match r2.drop u.length with
                | ')' :: r3 =>
                  match r3 with
                  | [] => some (nm, u, none)
                  | ':' :: r4 =>
                    let ws2 := r4.takeWhile asciiWs
                    let tail := r4.drop ws2.length
                    if tail ≠ [] then some (nm, u, some tail)
                    else if ws2.length ≥ 1 then some (nm, u, some [ws2.getLastD ' '])
                    else none
                  | _ => none
                | _ => none
            | _ => none
        | _ => none
    else none
  | [] => none

/-- The leading title loop of `parse_llms_txt`: skip blank lines, require
the first non-blank line to capture `H1_RE`, return the title and the
remaining lines. -/
def findTitle : List (List Char) → Except CBError (String × List (List Char))
  | [] => .error (.parse "llms.txt is empty")
  | l :: ls =>
    let trimmed := rustTrim l
    if trimmed = [] then findTitle ls
    else
      match h1Cap trimmed with
      | some text => .ok (⟨rustTrim text⟩, ls)
      | none => .error (.parse "llms.txt must start with an H1 heading (# Title)")

/-- The blockquote-summary loop: skip blanks, collect `>`-lines, stop at the
first other line. -/
def collectBlockquote : List (List Char) → List (List Char) × List (List Char)
  | [] => ([], [])
  | l :: ls =>
    let trimmed := rustTrim l
    if trimmed = [] then collectBlockquote ls
    else
      match bqCap trimmed with
      | some part =>
        let (ps, rest) := collectBlockquote ls
        (rustTrim part :: ps, rest)
      | none => ([], l :: ls)

/-- The section/entry loop of `parse_llms_txt`. -/
def parseBody (cur : Option LlmsSection) (secs : List LlmsSection)
    (entries : List LlmsEntry) : List (List Char) → List LlmsSection × List LlmsEntry
  | [] => (secs ++ (match cur with | some sec => [sec] | none => []), entries)
  | l :: ls =>
    let trimmed := rustTrim l
    if trimmed = [] then parseBody cur secs entries ls
    else
      match h2Cap trimmed with
      | some t =>
        let secs' := secs ++ (match cur with | some sec => [sec] | none => [])
        parseBody (some ⟨⟨rustTrim t⟩, []⟩) secs' entries ls
      | none =>
        match linkCap trimmed with
        | some (nm, u, nt) =>
          let entry : LlmsEntry :=
            ⟨⟨rustTrim nm⟩, ⟨rustTrim u⟩, nt.map (fun x => (⟨rustTrim x⟩ : String))⟩
          let cur' := match cur with
            | some sec => some ⟨sec.title, sec.entries ++ [entry]⟩
            | none => none
          parseBody cur' secs (entries ++ [entry]) ls
        | none => parseBody cur secs entries ls

/-- Translation of `parse_llms_txt`. -/
def parseLlmsTxt (content : String) : Except CBError LlmsParsed :=
  match findTitle (rustLines content.data) with
  | .error e => .error e
  | .ok (title, rest) =>
    let (parts, rest2) := collectBlockquote rest
    let summary : Option String :=
      if parts = [] then none else some ⟨joinWithChar ' ' parts⟩
    let (secs, entries) := parseBody none [] [] rest2
    .ok ⟨title, summary, secs, entries⟩

/-- Outcome of discovery. -/
inductive DiscoveryResult where
  | found (parsed : LlmsParsed) (llmsTxt : String) (llmsFullTxt : Option String)
  | notFound
  deriving DecidableEq

/-- Translation of `origin_url` (scheme + host; the source appends `:port`
when the URL carries an explicit port, which the claims do not exercise). -/
def originUrl (url : CrawlUrl) : Except CBError String :=
  match url.host with
  | some host => .ok (url.scheme ++ "://" ++ host)
  | none => .error (.validation "URL has no host")

/-- Translation of `discover`, with the outcomes of the two parallel fetches
supplied as parameters.  A failed or invalid `llms.txt` fetch becomes
`Ok(NotFound)`; a failed `llms-full.txt` fetch becomes `none`; but a parse
failure of the validated `llms.txt` body propagates as `Err` through the
`?` operator. -/
def discover (url : CrawlUrl) (llmsOutcome llmsFullOutcome : FetchOutcome) :
    Except CBError DiscoveryResult :=
  match originUrl url with
  | .error e => .error e
  | .ok origin =>
    match fetchAndValidate (origin ++ "/llms.txt") llmsOutcome with
    | .error _ => .ok .notFound
    | .ok llmsTxt =>
      let llmsFullTxt := match fetchAndValidate (origin ++ "/llms-full.txt") llmsFullOutcome with
        | .ok c => some c
        | .error _ => none
      match parseLlmsTxt llmsTxt with
      | .error e => .error e
      | .ok parsed => .ok (.found parsed llmsTxt llmsFullTxt)

-- sanity checks against the Rust unit tests of parser.rs and lib.rs
example :
    parseLlmsTxt "# Test\n\n## Section\n\n- [Link](https://example.com)\n" =
      .ok ⟨"Test", none, [⟨"Section", [⟨"Link", "https://example.com", none⟩]⟩],
        [⟨"Link", "https://example.com", none⟩]⟩ := rfl

example :
    parseLlmsTxt "# Title\n\n> Line one\n> Line two\n\n## Sec\n- [A](https://a.com)\n" =
      .ok ⟨"Title", some "Line one Line two", [⟨"Sec", [⟨"A", "https://a.com", none⟩]⟩],
        [⟨"A", "https://a.com", none⟩]⟩ := rfl

example : (parseLlmsTxt "").isOk = false := by decide

example : (parseLlmsTxt "This has no heading\nJust text.").isOk = false := by decide

/-- The C4 start URL. -/
def c4Url : CrawlUrl := ⟨"https", some "docs.example.com", "/"⟩

/-- The C4 failing body: it passes the H1-prefix validation (it starts with
`"# "`) but its first line is `'#'` followed by whitespace only, so
`parse_llms_txt` rejects it. -/
def c4Body : String := "#  \nrest"

/-- C4: evaluation of `discover` at the failing input.  A fetch failure and
an invalid (non-H1) body both give `Ok(NotFound)` as the specification says,
but a 200 response whose body passes the `"# "` check and then fails
structured parsing makes `discover` return `Err(Parse …)`. -/
theorem C4_discover_returns_error_on_parse_failure :
    discover c4Url (.response 200 (some 8) c4Body) (.netErr "unreachable") =
      .error (.parse "llms.txt must start with an H1 heading (# Title)") ∧
    discover c4Url (.netErr "unreachable") (.netErr "unreachable") = .ok .notFound ∧
    discover c4Url (.response 404 none "nope") (.netErr "unreachable") = .ok .notFound ∧
    discover c4Url (.response 200 (some (MAX_RESPONSE_SIZE + 1)) "# Docs\n") (.netErr "x") =
      .ok .notFound ∧
    discover c4Url (.response 200 none "no heading here") (.netErr "x") = .ok .notFound :=
  ⟨rfl, rfl, rfl, rfl, rfl⟩

/-- The byte stream fed to the SHA-256 hasher by `prompt_hash`:
`hasher.update(content.as_bytes()); hasher.update(task_type.as_bytes())`
hashes the concatenation. -/
def promptHashBytes (content taskType : String) : List Nat :=
  utf8Bytes content.data ++ utf8Bytes taskType.data

/-- Translation of `prompt_hash`, with the SHA-256 digest of the external
`sha2` crate abstracted as the function `sha` from byte streams to
lower-case-hex strings. -/
def promptHash (sha : List Nat → String) (content taskType : String) : String :=
  sha (promptHashBytes content taskType)

/-- What one phase-1 iteration of `run_enrichment` computes for a page:
the cache-key hash (`prompt_hash(content, "summarize_page")`, before any
truncation) and the content put into the bridge task
(`truncate_content(content, 12_000)`; `none` models the truncation panic). -/
def summarizePageView (sha : List Nat → String) (content : String) :
    String × Option String :=
  (promptHash sha content "summarize_page", truncateContent content 12000)

/-- The same for one phase-2 iteration (`generate_description`, budget
8,000). -/
def generateDescriptionView (sha : List Nat → String) (content : String) :
    String × Option String :=
  (promptHash sha content "generate_description", truncateContent content 8000)

theorem utf8Bytes_append (xs ys : List Char) :
    utf8Bytes (xs ++ ys) = utf8Bytes xs ++ utf8Bytes ys := by
  simp [utf8Bytes]

theorem utf8Bytes_replicate_a (n : Nat) :
    utf8Bytes (List.replicate n 'a') = List.replicate n 97 := by
  induction n with
  | zero => rfl
  | succ n ih =>
    rw [List.replicate_succ, List.replicate_succ]
    show utf8Char 'a' ++ utf8Bytes (List.replicate n 'a') = 97 :: List.replicate n 97
    rw [ih]
    rfl

theorem takeBytes_replicate_a (n : Nat) (tail : List Char) :
    takeBytes n (List.replicate n 'a' ++ tail) = some (List.replicate n 'a') := by
  induction n with
  | zero => simp [takeBytes]
  | succ n ih =>
    rw [List.replicate_succ, List.cons_append]
    show takeBytes (n + 1) ('a' :: (List.replicate n 'a' ++ tail)) = _
    rw [takeBytes]
    have hsz : (utf8Char 'a').length = 1 := rfl
    simp only [hsz]
    rw [if_pos (by omega), show n + 1 - 1 = n from rfl, ih]
    rfl

/-- The long content of the C5 counterexample: 12,001 `'a'`s (12,001 bytes,
one over the summary budget). -/
def c5Content : String := ⟨List.replicate 12001 'a'⟩

/-- The clipped form of `c5Content` under the 12,000-byte budget. -/
def c5Clipped : String := ⟨List.replicate 12000 'a' ++ TRUNCATION_MARKER.data⟩

/-- A hash-model distinguishing the two streams by length (the real SHA-256
digests of two streams of different lengths differ as well). -/
def c5Sha : List Nat → String := fun bs => if bs.length = 12015 then "long" else "short"

theorem c5_truncate : truncateContent c5Content 12000 = some c5Clipped := by
  have hdata : c5Content.data = List.replicate 12001 'a' := rfl
  have hlen : strByteLen c5Content = 12001 := by
    unfold strByteLen
    rw [hdata, utf8Bytes_replicate_a, List.length_replicate]
  unfold truncateContent
  rw [hlen, if_neg (by omega), hdata,
    show List.replicate 12001 'a' = List.replicate 12000 'a' ++ ['a'] from by
      rw [← List.replicate_succ'],
    takeBytes_replicate_a]
  rfl

/-- C5 counterexample: at a 12,001-byte content the cache key of
`summarize_page` hashes the unclipped content (12,001 + 14 input bytes),
not the clipped content (12,000 + marker + 14 bytes): the two hash inputs —
and hence the digests — differ. -/
theorem C5_counterexample :
    truncateContent c5Content 12000 = some c5Clipped ∧
    promptHashBytes c5Content "summarize_page" ≠
      promptHashBytes c5Clipped "summarize_page" ∧
    (summarizePageView c5Sha c5Content).1 = "long" ∧
    promptHash c5Sha c5Clipped "summarize_page" = "short" ∧
    (summarizePageView c5Sha c5Content).1 ≠ promptHash c5Sha c5Clipped "summarize_page" := by
  have h14 : (utf8Bytes ("summarize_page".data)).length = 14 := by decide
  have hlen1 : (promptHashBytes c5Content "summarize_page").length = 12015 := by
    unfold promptHashBytes
    rw [List.length_append, show c5Content.data = List.replicate 12001 'a' from rfl,
      utf8Bytes_replicate_a, List.length_replicate, h14]
  have hlen2 : (promptHashBytes c5Clipped "summarize_page").length =
      12014 + (utf8Bytes TRUNCATION_MARKER.data).length := by
    unfold promptHashBytes
    rw [List.length_append, show c5Clipped.data =
        List.replicate 12000 'a' ++ TRUNCATION_MARKER.data from rfl,
      utf8Bytes_append, List.length_append, utf8Bytes_replicate_a,
      List.length_replicate, h14]
    omega
  have hmarker : (utf8Bytes TRUNCATION_MARKER.data).length ≠ 1 := by decide
  have hL : (summarizePageView c5Sha c5Content).1 = "long" := by
    simp only [summarizePageView, promptHash]
    simp [c5Sha, hlen1]
  have hS : promptHash c5Sha c5Clipped "summarize_page" = "short" := by
    have hne : (promptHashBytes c5Clipped "summarize_page").length ≠ 12015 := by
      rw [hlen2]
      omega
    simp only [promptHash]
    simp [c5Sha, hne]
  refine ⟨c5_truncate, ?_, hL, hS, by rw [hL, hS]; decide⟩
  intro he
  have hc := congrArg List.length he
  rw [hlen1, hlen2] at hc
  omega

/-- C5 (amended): for both per-page tasks the cache key hashes the full,
unclipped content concatenated with the task-type string; clipping applies
only to the content sent to the bridge (12,000 bytes for `summarize_page`,
8,000 for `generate_description`), and within budget the clipped content is
the content itself. -/
theorem C5_prompt_hash_unclipped (sha : List Nat → String) (content : String) :
    (summarizePageView sha content).1 =
      sha (utf8Bytes content.data ++ utf8Bytes "summarize_page".data) ∧
    (summarizePageView sha content).2 = truncateContent content 12000 ∧
    (generateDescriptionView sha content).1 =
      sha (utf8Bytes content.data ++ utf8Bytes "generate_description".data) ∧
    (generateDescriptionView sha content).2 = truncateContent content 8000 ∧
    (strByteLen content ≤ 12000 → (summarizePageView sha content).2 = some content) := by
  refine ⟨rfl, rfl, rfl, rfl, ?_⟩
  intro h
  unfold summarizePageView truncateContent
  rw [if_pos h]

/-- Witness for C5 (amended): at a short concrete content the key hashes the
content itself and the sent content is unclipped. -/
theorem C5_prompt_hash_unclipped_witness :
    (summarizePageView c5Sha "hello").1 =
      c5Sha (utf8Bytes "hello".data ++ utf8Bytes "summarize_page".data) ∧
    (summarizePageView c5Sha "hello").2 = some "hello" :=
  ⟨(C5_prompt_hash_unclipped c5Sha "hello").1,
   (C5_prompt_hash_unclipped c5Sha "hello").2.2.2.2 (by decide)⟩

/-! ## Claim theorems for the cleanup pipeline -/

/-- C2 counterexample: the seven-pass pipeline is not idempotent.  On
`"a\n \n \n \nb"` the first run right-trims the whitespace-only lines
(pass 6) and creates a run of four newlines — after the blank-line collapse
(pass 2) has already run — and a second run collapses that run to three. -/
theorem C2_cleanup_not_idempotent :
    runPipeline none "a\n \n \n \nb" = "a\n\n\n\nb\n" ∧
    runPipeline none (runPipeline none "a\n \n \n \nb") = "a\n\n\nb\n" ∧
    runPipeline none (runPipeline none "a\n \n \n \nb") ≠
      runPipeline none "a\n \n \n \nb" := by
  refine ⟨by decide, by decide, by decide⟩

/-- C2 (amended): the blank-line collapse pass on its own is idempotent
(runs of four or more newlines collapse to exactly three, and a collapsed
string is a fixed point), but the seven-pass composition is not, because the
HTML-strip and trailing-whitespace passes can create new ≥ 4-newline runs
after pass 2 has run. -/
theorem C2_clean_blank_lines_idempotent (s : String) :
    cleanBlankLines (cleanBlankLines s) = cleanBlankLines s := by
  unfold cleanBlankLines
  have h := collapseAux_of_okRun (collapseAux 0 s.data) 0 (by omega)
    (okRun_collapseAux s.data 0)
  simp only [List.replicate, List.nil_append] at h
  exact congrArg String.mk h

end ContextBuilder
